import Mathlib

/-!
# Registry Reconciliation & Change-Detection Engine: a shallow embedding

This file embeds the core of the repository (the Notary reconciler in
`notary.py` and the Differ in `differ.py`) as executable Lean definitions
and proves the specification claims about them.

Modelling conventions:
* Python dicts keyed by strings become association lists `List (String × α)`
  in insertion order (Python 3.7+ dicts preserve insertion order); assignment
  `d[k] = v` replaces the binding in place when the key exists and appends
  otherwise, exactly as `setKey` below.
* Registry entries and prize rows are structures whose fields mirror the JSON
  schemas written by `notary.py`; optional dict keys become `Option` fields
  (`none` models an absent key).
* Machine integers are `Int` (Python ints are unbounded).
* The float comparison `new_wealth < old_wealth * 0.75` is modelled in exact
  integer arithmetic as `4 * new_wealth < 3 * old_wealth`; `0.75` is exactly
  representable in binary floating point, so this agrees with the Python
  comparison for all magnitudes that occur (below 2^51).
* Fallible code (uncaught `ValueError` / `json.JSONDecodeError` /
  `ZeroDivisionError`) is modelled with `Except PyErr`.
* File-backed state is passed explicitly as a `FileState`: a persisted file is
  `missing`, `corrupt` (present but unparseable JSON), or `stored v`.
* Nondeterministic inputs (`datetime.now().isoformat()`, `uuid.uuid4()`) are
  explicit parameters: `now : String` and `fresh : Nat → String` (the value of
  the k-th generated uuid of the run).
-/

set_option linter.unusedVariables false

deriving instance DecidableEq for Except

namespace DeInformer

/-- Exceptions that the embedded code can raise (only the ones reachable in
the modelled fragment). -/
inductive PyErr where
  | jsonDecodeError
  | valueError
  | zeroDivisionError
deriving Repr, DecidableEq

/-- State of a persisted JSON file: absent, present-but-unparseable, or
successfully parsed content. -/
inductive FileState (α : Type) where
  | missing
  | corrupt
  | stored (val : α)
deriving Repr, DecidableEq

/-! ## Association-list primitives (Python `dict` semantics) -/

/-- `k in d` for a string-keyed dict. -/
def hasKey {α : Type} (l : List (String × α)) (k : String) : Bool :=
  l.any (fun kv => kv.1 == k)

/-- `d.get(k)` / `d[k]` lookup (first binding). -/
def getKey {α : Type} (l : List (String × α)) (k : String) : Option α :=
  (l.find? (fun kv => kv.1 == k)).map (fun kv => kv.2)

/-- `d[k] = v`: replace the binding in place if the key exists, else append. -/
def setKey {α : Type} (l : List (String × α)) (k : String) (v : α) :
    List (String × α) :=
  if hasKey l k then l.map (fun kv => if kv.1 == k then (k, v) else kv)
  else l ++ [(k, v)]

/-! ## Numeric string parsing (Python `int()` and the regex cleanups) -/

/-- Value of a digit list read in base 10. -/
def digitsVal (cs : List Char) : Nat :=
  cs.foldl (fun a c => 10 * a + (c.toNat - 48)) 0

/-- Python `int(s)` on the strings that occur in this data set: an optional
sign followed by a nonempty run of ASCII digits parses; everything else
raises `ValueError` (`none` here).  Python's tolerance for surrounding
whitespace and `_` separators is not modelled — no such string occurs. -/
def intParse (s : String) : Option Int :=
  match s.data with
  | [] => none
  | '-' :: rest =>
    if rest ≠ [] ∧ rest.all Char.isDigit then some (-(digitsVal rest : Int))
    else none
  | '+' :: rest =>
    if rest ≠ [] ∧ rest.all Char.isDigit then some ((digitsVal rest : Int))
    else none
  | cs =>
    if cs.all Char.isDigit then some ((digitsVal cs : Int)) else none

/-- `re.sub(r'[^\d]', '', s)`: keep only ASCII digits. -/
def stripNonDigits (s : String) : String :=
  String.mk (s.data.filter Char.isDigit)

/-- `s.replace(",", "")`: drop every comma. -/
def removeCommas (s : String) : String :=
  String.mk (s.data.filter (fun c => c ≠ ','))

/-! ## Data model -/

/-- One prize row, as scraped (`sensor_nc.py` builds
`{"value": …, "odds": …, "total": …}` dicts of strings; `raw_value` appears in
archived data).  `none` models an absent dict key. -/
structure Prize where
  value : Option String
  odds : Option String
  total : Option String
  raw_value : Option String
deriving Repr, DecidableEq

/-- The 2-field view of an entry used by the wealth calculators and by the
candidate ("temp") registry built inside `process_audit`
(`{"prizes": …, "status": "ACTIVE"}`). -/
structure WEntry where
  status : String
  prizes : List Prize
deriving Repr, DecidableEq

/-- A persistent registry entry, with exactly the fields written by the BIRTH
branch of `process_audit` (the schema of `registry.json`). -/
structure Entry where
  guid : String
  game_id : String
  game_name : String
  product_key : String
  url_slug : String
  overall_odds : String
  prizes : List Prize
  status : String
  first_seen : String
  last_seen : String
  miss_count : Int
  death_date : Option String
  last_run_id : String
deriving Repr, DecidableEq

instance : Inhabited Entry :=
  ⟨{ guid := "", game_id := "", game_name := "", product_key := "",
     url_slug := "", overall_odds := "", prizes := [], status := "",
     first_seen := "", last_seen := "", miss_count := 0, death_date := none,
     last_run_id := "" }⟩

/-- The system of record: `registry.json`, a dict from `external_id` to entry. -/
abbrev Registry := List (String × Entry)

/-- One observed record handed to the Notary (an element of `parsed_games`). -/
structure Game where
  game_id : String
  game_name : String
  url_slug : String
  prizes : List Prize
deriving Repr, DecidableEq

/-- One run's statistics appended to `pulse_history.json`. -/
structure PulseSample where
  run_id : String
  timestamp : String
  game_count : Int
  total_wealth : Int
  top_prize_sum : Int
  birth_count : Int
  death_count : Int
  html_size_kb : Int
deriving Repr, DecidableEq

namespace Notary

/-! ## `notary.py` -/

/-- `slugify`, step 3: `re.sub(r'[\s_]+', '-', text)` — replace every maximal
run of whitespace/underscores by a single hyphen.  The flag records whether
the previous character belonged to such a run. -/
def collapseRunsAux : Bool → List Char → List Char
  | _, [] => []
  | inRun, c :: rest =>
    if c.isWhitespace || c == '_' then
      if inRun then collapseRunsAux true rest
      else '-' :: collapseRunsAux true rest
    else c :: collapseRunsAux false rest

def collapseRuns (cs : List Char) : List Char :=
  collapseRunsAux false cs

/-- `notary.slugify` (ASCII fragment of `\w`): lowercase, drop characters
outside `[\w\s-]`, collapse whitespace/underscore runs to a hyphen, strip
leading/trailing hyphens. -/
def slugify (text : String) : String :=
  let t := String.mk (text.data.map Char.toLower)
  let kept := t.data.filter
    (fun c => c.isAlphanum || c == '_' || c.isWhitespace || c == '-')
  let collapsed := collapseRuns kept
  let stripped :=
    ((collapsed.dropWhile (fun c => c == '-')).reverse.dropWhile
      (fun c => c == '-')).reverse
  String.mk stripped

/-- Contribution of one prize row to `calculate_total_wealth`: the body of the
per-prize `try` block — `int(re.sub(r'[^\d]', '', prize['value'])) *
int(prize['total'])`, with any `KeyError`/`ValueError` making the prize
contribute 0. -/
def prizeContribution (p : Prize) : Int :=
  ((do
    let v ← p.value
    let n ← intParse (stripNonDigits v)
    let t ← p.total
    let c ← intParse t
    pure (n * c)) : Option Int).getD 0

/-- `notary.calculate_total_wealth`: sum of `value × total` over every prize
of every ACTIVE entry. -/
def calculate_total_wealth (reg : List (String × WEntry)) : Int :=
  reg.foldl
    (fun acc kv =>
      if kv.2.status == "ACTIVE" then
        acc + (kv.2.prizes.map prizeContribution).sum
      else acc)
    0

/-- `notary.calculate_top_prize_sum`: same sum restricted to `prizes[0]` of
each ACTIVE entry with a nonempty (truthy) prize list. -/
def calculate_top_prize_sum (reg : List (String × WEntry)) : Int :=
  reg.foldl
    (fun acc kv =>
      if kv.2.status == "ACTIVE" && !kv.2.prizes.isEmpty then
        acc + (kv.2.prizes.headD ⟨none, none, none, none⟩ |> prizeContribution)
      else acc)
    0

/-- Projection of a full registry to the status/prizes view consumed by the
wealth calculators. -/
def wproj (reg : Registry) : List (String × WEntry) :=
  reg.map (fun kv => (kv.1, ⟨kv.2.status, kv.2.prizes⟩))

/-- One iteration of the "temporarily update registry in memory" loop:
count a birth when the id is not yet in the candidate registry, then write
the two-field candidate entry. -/
def tempStep (acc : List (String × WEntry) × Nat) (g : Game) :
    List (String × WEntry) × Nat :=
  let b := if hasKey acc.1 g.game_id then acc.2 else acc.2 + 1
  (setKey acc.1 g.game_id ⟨"ACTIVE", g.prizes⟩, b)

/-- The "temporarily update registry in memory" loop of `process_audit`:
builds the candidate registry (`temp_registry`) and counts births. -/
def buildTemp (reg : List (String × WEntry)) (games : List Game) :
    List (String × WEntry) × Nat :=
  games.foldl tempStep (reg, 0)

/-- `PULSE_WINDOW` from `notary.py`. -/
def PULSE_WINDOW : Nat := 200

/-- `notary.update_pulse`: load the history (missing or unparseable file →
`[]`; here `json.JSONDecodeError` IS caught), append the sample, keep the
most recent `PULSE_WINDOW` entries. -/
def update_pulse (file : FileState (List PulseSample)) (s : PulseSample) :
    List PulseSample :=
  let history : List PulseSample :=
    match file with
    | .missing => []
    | .corrupt => []
    | .stored h => h
  let h := history ++ [s]
  if h.length > PULSE_WINDOW then h.drop (h.length - PULSE_WINDOW) else h

/-- A statistical baseline as returned by `get_statistical_baseline`. The
averages are exact rationals standing for the Python floats; the only reads of
them downstream are the zero test (division) and an advisory comparison. -/
structure Baseline where
  avg_wealth : ℚ
  avg_games : ℚ
  sample_size : Nat
deriving Repr, DecidableEq

/-- `notary.get_statistical_baseline`: missing file → no baseline; NOTE that
unlike the registry load and `update_pulse`, the `json.load` here is NOT
wrapped in a `try`, so an unparseable file raises `json.JSONDecodeError`;
fewer than 3 samples → no baseline; otherwise the arithmetic means. -/
def get_statistical_baseline (file : FileState (List PulseSample)) :
    Except PyErr (Option Baseline) :=
  match file with
  | .missing => .ok none
  | .corrupt => .error .jsonDecodeError
  | .stored history =>
    if history.length < 3 then .ok none
    else .ok (some
      { avg_wealth := ((history.map (fun h => h.total_wealth)).sum : ℚ) /
          (history.length : ℚ)
        avg_games := ((history.map (fun h => h.game_count)).sum : ℚ) /
          (history.length : ℚ)
        sample_size := history.length })

/-- STASIS branch of the commit loop: `registry[gid].update({...})`. -/
def stasisUpdate (e : Entry) (g : Game) (now run_id : String) : Entry :=
  { e with last_seen := now, status := "ACTIVE", miss_count := 0,
           prizes := g.prizes, last_run_id := run_id }

/-- BIRTH branch of the commit loop: the freshly created entry. -/
def birthEntry (g : Game) (guid now run_id : String) : Entry :=
  { guid := guid, game_id := g.game_id, game_name := g.game_name,
    product_key := slugify g.game_name, url_slug := g.url_slug,
    overall_odds := "Unknown", prizes := g.prizes, status := "ACTIVE",
    first_seen := now, last_seen := now, miss_count := 0, death_date := none,
    last_run_id := run_id }

/-- One iteration of the commit loop, threading the registry and the number
of BIRTH events so far (which indexes the uuid supply `fresh`). -/
def commitStep (now run_id : String) (fresh : Nat → String)
    (acc : Registry × Nat) (g : Game) : Registry × Nat :=
  match getKey acc.1 g.game_id with
  | some e => (setKey acc.1 g.game_id (stasisUpdate e g now run_id), acc.2)
  | none =>
    (setKey acc.1 g.game_id (birthEntry g (fresh acc.2) now run_id), acc.2 + 1)

/-- The commit loop of `process_audit` ("Continue with actual update..."). -/
def commitPhase (reg : Registry) (games : List Game) (now run_id : String)
    (fresh : Nat → String) : Registry :=
  (games.foldl (commitStep now run_id fresh) (reg, 0)).1

/-- The DEATH-management sweep applied to one entry (the dict value is
mutated in place, so the key is untouched): entries that are ACTIVE and
absent from the observed batch get `miss_count` bumped and, at
`miss_count ≥ 3`, are retired with `death_date = now`. -/
def sweptEntry (live_ids : List String) (now : String) (kv : String × Entry) :
    Entry :=
  if kv.2.status == "ACTIVE" && !live_ids.contains kv.1 then
    if kv.2.miss_count + 1 ≥ 3 then
      { kv.2 with miss_count := kv.2.miss_count + 1,
                  status := "RETIRED", death_date := some now }
    else { kv.2 with miss_count := kv.2.miss_count + 1 }
  else kv.2

def deathSweepEntry (live_ids : List String) (now : String)
    (kv : String × Entry) : String × Entry :=
  (kv.1, sweptEntry live_ids now kv)

/-- Whether the sweep retires this entry (for `death_count`). -/
def retiresNow (live_ids : List String) (kv : String × Entry) : Bool :=
  kv.2.status == "ACTIVE" && !live_ids.contains kv.1 &&
    decide (kv.2.miss_count + 1 ≥ 3)

/-- DEATH management over the whole registry, returning the swept registry
and `death_count`. -/
def deathSweep (reg : Registry) (live_ids : List String) (now : String) :
    Registry × Nat :=
  (reg.map (deathSweepEntry live_ids now),
   (reg.filter (retiresNow live_ids)).length)

/-- Loading `registry.json` at the start of `process_audit`: missing file and
unparseable file (the `json.JSONDecodeError` IS caught here) both yield the
empty registry. -/
def loadRegistry (file : FileState Registry) : Registry :=
  match file with
  | .missing => []
  | .corrupt => []
  | .stored r => r

/-- Everything `process_audit` leaves behind: its return value (`none` models
the `return None` of the hard-gate abort) and the two persisted files. -/
structure AuditOutcome where
  result : Option Registry
  regFile : FileState Registry
  pulseFile : FileState (List PulseSample)
deriving Repr, DecidableEq

/-- The committed half of `process_audit` (reached once the hard gate has
passed and the statistical check has not raised): commit loop, death sweep,
pulse append, registry save. -/
def commitRun (registry : Registry) (games : List Game)
    (run_id now : String) (html_size_kb : Int)
    (pulseFile : FileState (List PulseSample))
    (new_wealth new_top : Int) (birth_count : Nat) (fresh : Nat → String) :
    AuditOutcome :=
  let live_ids := games.map (fun g => g.game_id)
  let reg1 := commitPhase registry games now run_id fresh
  let swept := deathSweep reg1 live_ids now
  let sample : PulseSample :=
    { run_id := run_id, timestamp := now, game_count := games.length,
      total_wealth := new_wealth, top_prize_sum := new_top,
      birth_count := birth_count, death_count := swept.2,
      html_size_kb := html_size_kb }
  let hist := update_pulse pulseFile sample
  { result := some swept.1, regFile := .stored swept.1,
    pulseFile := .stored hist }

/-- `notary.process_audit`, end to end.  Control flow mirrors the source:
load registry (lenient), compute `old_wealth`, load the baseline (raises on a
corrupt pulse file), build the candidate registry and its stats, hard
integrity gate (`return None`, nothing persisted), statistical check (whose
two divisions raise `ZeroDivisionError` on a degenerate baseline and whose
comparison only prints), then commit. -/
def process_audit (regFile : FileState Registry)
    (pulseFile : FileState (List PulseSample)) (parsed_games : List Game)
    (run_id : String) (html_size_kb : Int) (now : String)
    (fresh : Nat → String) : Except PyErr AuditOutcome :=
  let registry := loadRegistry regFile
  let old_wealth := calculate_total_wealth (wproj registry)
  match get_statistical_baseline pulseFile with
  | .error e => .error e
  | .ok baseline =>
    let temp := buildTemp (wproj registry) parsed_games
    let new_wealth := calculate_total_wealth temp.1
    let new_top := calculate_top_prize_sum temp.1
    -- Hard check: `old_wealth > 0 and new_wealth < old_wealth * 0.75`.
    if old_wealth > 0 ∧ 4 * new_wealth < 3 * old_wealth then
      .ok { result := none, regFile := regFile, pulseFile := pulseFile }
    else
      match baseline with
      | some b =>
        -- `wealth_diff` and `game_diff` are computed unconditionally; each
        -- division raises ZeroDivisionError when its denominator is 0.  The
        -- `> 0.40` comparison only prints and never changes control flow.
        if b.avg_wealth = 0 ∨ b.avg_games = 0 then .error .zeroDivisionError
        else .ok (commitRun registry parsed_games run_id now html_size_kb
          pulseFile new_wealth new_top temp.2 fresh)
      | none =>
        .ok (commitRun registry parsed_games run_id now html_size_kb
          pulseFile new_wealth new_top temp.2 fresh)

end Notary

namespace Differ

/-! ## `differ.py` -/

/-- `str(prize.get(field, 0))`: an absent key defaults to the integer `0`,
whose `str()` is `"0"`; present values in this pipeline are strings. -/
def pyStrField (f : Option String) : String := f.getD "0"

/-- Contribution of one prize to `differ._calculate_total_wealth`: the body of
the per-prize `try` — `int(str(…"value"…).replace(",", "")) *
int(str(…"total"…).replace(",", ""))`, any `ValueError` making the prize
contribute 0.  Note: unlike the Notary's cleaner this strips only commas, so
a `$`-prefixed value raises and is skipped. -/
def differPrizeContribution (p : Prize) : Int :=
  ((do
    let v ← intParse (removeCommas (pyStrField p.value))
    let c ← intParse (removeCommas (pyStrField p.total))
    pure (v * c)) : Option Int).getD 0

/-- `differ._calculate_total_wealth`: sums over EVERY game in the registry
(no status restriction, unlike `notary.calculate_total_wealth`). -/
def calculate_total_wealth_diff (reg : Registry) : Int :=
  (reg.map (fun kv => (kv.2.prizes.map differPrizeContribution).sum)).sum

/-- One element of `delta["games_added"]`.  The entry schema written by the
Notary has no `ticket_price` key, so `game.get("ticket_price", "Unknown")`
is the constant `"Unknown"` here. -/
structure GameAdded where
  game_id : String
  game_name : String
  ticket_price : String
deriving Repr, DecidableEq

/-- One element of `delta["games_retired"]`; `reason` is present only for the
entries produced by the status-change pass. -/
structure GameRetired where
  game_id : String
  game_name : String
  reason : Option String
deriving Repr, DecidableEq

/-- One element of `delta["prize_changes"]`. -/
structure PrizeChange where
  game_id : String
  game_name : String
  prize_tier : Nat
  prize_value : String
  old_remaining : Int
  new_remaining : Int
  change : Int
  meaning : String
deriving Repr, DecidableEq

/-- The delta record built by `compute_delta`.  The volatile `date` /
`detected_at` timestamps and the derived natural-language `summary` are not
modelled (no claim mentions them). -/
structure Delta where
  run_id : String
  games_added : List GameAdded
  games_retired : List GameRetired
  prize_changes : List PrizeChange
  wealth_before : Int
  wealth_after : Int
  wealth_delta : Int
deriving Repr, DecidableEq

/-- `int(prize.get("total", 0))`: an absent key gives `int(0) = 0`; a present
string is parsed by `int()`, raising `ValueError` on failure — this raise is
NOT caught in `compute_delta`. -/
def pyIntRaise (f : Option String) : Except PyErr Int :=
  match f with
  | none => .ok 0
  | some s =>
    match intParse s with
    | some n => .ok n
    | none => .error .valueError

/-- Total model of `registry[gid]`, only ever applied to ids drawn from the
registry's own key set (so the `KeyError` branch is unreachable). -/
def lookupE (reg : Registry) (gid : String) : Entry :=
  (getKey reg gid).getD default

/-- Iteration order for `old_ids & new_ids`: Python iterates a set of the
dict keys (all distinct); we iterate the old registry's keys in insertion
order, filtered by membership in the new one.  All claims proved below are
insensitive to this order. -/
def interIds (old_registry new_registry : Registry) : List String :=
  (old_registry.map (fun kv => kv.1)).filter (fun gid => hasKey new_registry gid)

/-- The `new_ids - old_ids` loop building `games_added`. -/
def gamesAddedOf (old_registry new_registry : Registry) : List GameAdded :=
  (new_registry.filter (fun kv => !hasKey old_registry kv.1)).map
    (fun kv => ⟨kv.1, kv.2.game_name, "Unknown"⟩)

/-- The `old_ids - new_ids` loop: first source of `games_retired`. -/
def gamesRetiredMissing (old_registry new_registry : Registry) :
    List GameRetired :=
  (old_registry.filter (fun kv => !hasKey new_registry kv.1)).map
    (fun kv => ⟨kv.1, kv.2.game_name, none⟩)

/-- The status-change pass over `old_ids & new_ids`: second source of
`games_retired`. -/
def gamesRetiredStatus (old_registry new_registry : Registry) :
    List GameRetired :=
  (interIds old_registry new_registry).filterMap (fun gid =>
    let old_status := (lookupE old_registry gid).status
    let new_status := (lookupE new_registry gid).status
    if old_status ≠ new_status then
      some ⟨gid, (lookupE new_registry gid).game_name,
            some ("Status changed: " ++ old_status ++ " -> " ++ new_status)⟩
    else none)

/-- Comparison of one prize tier (index `i`) of a game present in both
snapshots; `none` when the totals agree. -/
def tierChange (gid gname : String) (i : Nat) (op np : Prize) :
    Except PyErr (Option PrizeChange) := do
  let old_total ← pyIntRaise op.total
  let new_total ← pyIntRaise np.total
  if old_total ≠ new_total then
    let pv := op.raw_value.getD (op.value.getD "?")
    let change := new_total - old_total
    pure (some ⟨gid, gname, i, pv, old_total, new_total, change,
      toString change.natAbs ++
        (if change < 0 then " claimed" else " added")⟩)
  else
    pure none

/-- The body of `for i, (old_p, new_p) in enumerate(zip(...))`: collect the
changed tiers in order, from tier index `i` on, stopping at the first raise. -/
def collectTierChanges (gid gname : String) :
    Nat → List (Prize × Prize) → Except PyErr (List PrizeChange)
  | _, [] => .ok []
  | i, pq :: rest => do
    let c ← tierChange gid gname i pq.1 pq.2
    let cs ← collectTierChanges gid gname (i + 1) rest
    match c with
    | some x => pure (x :: cs)
    | none => pure cs

/-- The per-game prize loop: `enumerate(zip(old_prizes, new_prizes))`. -/
def gamePrizeChanges (old_registry new_registry : Registry) (gid : String) :
    Except PyErr (List PrizeChange) :=
  collectTierChanges gid (lookupE new_registry gid).game_name 0
    ((lookupE old_registry gid).prizes.zip
      (lookupE new_registry gid).prizes)

/-- The whole prize-change pass of `compute_delta`, game by game. -/
def prizeChangesAll (old_registry new_registry : Registry) :
    List String → Except PyErr (List PrizeChange)
  | [] => .ok []
  | gid :: rest => do
    let cs ← gamePrizeChanges old_registry new_registry gid
    let more ← prizeChangesAll old_registry new_registry rest
    pure (cs ++ more)

def prizeChangesOf (old_registry new_registry : Registry) :
    Except PyErr (List PrizeChange) :=
  prizeChangesAll old_registry new_registry
    (interIds old_registry new_registry)

/-- `differ.compute_delta`.  `games_retired` is the missing-pass list followed
by the status-pass list, in the source's append order. -/
def compute_delta (old_registry new_registry : Registry) (run_id : String) :
    Except PyErr Delta := do
  let pcs ← prizeChangesOf old_registry new_registry
  let wb := calculate_total_wealth_diff old_registry
  let wa := calculate_total_wealth_diff new_registry
  pure
    { run_id := run_id
      games_added := gamesAddedOf old_registry new_registry
      games_retired := gamesRetiredMissing old_registry new_registry ++
        gamesRetiredStatus old_registry new_registry
      prize_changes := pcs
      wealth_before := wb
      wealth_after := wa
      wealth_delta := wa - wb }

/-- `differ.has_meaningful_changes`. -/
def has_meaningful_changes (d : Delta) : Bool :=
  !d.games_added.isEmpty || !d.games_retired.isEmpty ||
    !d.prize_changes.isEmpty

/-! ### `compute_data_hash`: projection, canonical serialization, SHA-256 -/

/-- The "DNA" of one entry hashed by `compute_data_hash`:
`{"game_id": …, "status": …, "prizes": …}`. -/
structure HashView where
  game_id : String
  status : String
  prizes : List Prize
deriving Repr, DecidableEq

def hashableView (e : Entry) : HashView :=
  ⟨e.game_id, e.status, e.prizes⟩

/-- The registry content that determines the fingerprint. -/
def hashProj (reg : Registry) : List (String × HashView) :=
  reg.map (fun kv => (kv.1, hashableView kv.2))

/-- Python's `<` on strings: lexicographic comparison of code points. -/
def charListLt : List Char → List Char → Bool
  | [], [] => false
  | [], _ :: _ => true
  | _ :: _, [] => false
  | a :: as, b :: bs =>
    if a.toNat < b.toNat then true
    else if b.toNat < a.toNat then false
    else charListLt as bs

def keyLt (a b : String) : Bool := charListLt a.data b.data

/-- Insertion of one keyed element into a key-sorted list (`sort_keys=True`
sorts by Python's code-point string order, `keyLt`). -/
def insertByKey {α : Type} (kv : String × α) :
    List (String × α) → List (String × α)
  | [] => [kv]
  | x :: rest =>
    if keyLt kv.1 x.1 then kv :: x :: rest else x :: insertByKey kv rest

/-- Sort an association list by key (insertion sort). -/
def sortByKey {α : Type} (l : List (String × α)) : List (String × α) :=
  l.foldr insertByKey []

/-- JSON string literal.  Quote and backslash escaping as in `json.dumps`;
the remaining escapes (control characters, `ensure_ascii`) are orthogonal to
every property proved here and are not modelled. -/
def jsonStr (s : String) : String :=
  "\"" ++
    (s.data.map (fun c =>
      if c == '"' then "\\\""
      else if c == '\\' then "\\\\"
      else String.singleton c)).foldr (· ++ ·) "" ++ "\""

/-- JSON object from already-rendered field values, `json.dumps` default
separators (`", "` and `": "`). -/
def jsonObjOfRendered (fields : List (String × String)) : String :=
  "\x7b" ++
    String.intercalate ", "
      (fields.map (fun kv => jsonStr kv.1 ++ ": " ++ kv.2)) ++ "\x7d"

/-- JSON array from already-rendered elements. -/
def jsonArr (elems : List String) : String :=
  "[" ++ String.intercalate ", " elems ++ "]"

/-- Serialization of one prize dict with keys in sorted order
(`odds < raw_value < total < value`); absent keys are omitted, exactly as an
absent dict key would be. -/
def serializePrize (p : Prize) : String :=
  jsonObjOfRendered (
    (match p.odds with | some v => [("odds", jsonStr v)] | none => []) ++
    (match p.raw_value with
     | some v => [("raw_value", jsonStr v)] | none => []) ++
    (match p.total with | some v => [("total", jsonStr v)] | none => []) ++
    (match p.value with | some v => [("value", jsonStr v)] | none => []))

/-- Serialization of one projected entry with keys in sorted order
(`game_id < prizes < status`). -/
def serializeHashView (h : HashView) : String :=
  jsonObjOfRendered
    [("game_id", jsonStr h.game_id),
     ("prizes", jsonArr (h.prizes.map serializePrize)),
     ("status", jsonStr h.status)]

/-- `json.dumps(hashable_data, sort_keys=True, cls=DecimalEncoder)`: sort the
projected registry by key, then serialize.  (`DecimalEncoder` is irrelevant
here: the pipeline's values are strings.) -/
def serializeHashable (reg : Registry) : String :=
  jsonObjOfRendered
    ((sortByKey (hashProj reg)).map
      (fun kv => (kv.1, serializeHashView kv.2)))

/-! SHA-256 (FIPS 180-4), over `Nat` with explicit reduction mod 2^32. -/

/-- Truncation to a 32-bit word. -/
def w32 (n : Nat) : Nat := n % 4294967296

/-- 32-bit right rotation. -/
def rotr (n x : Nat) : Nat := w32 ((x >>> n) ||| (x <<< (32 - n)))

/-- Round constants: fractional parts of the cube roots of the first 64
primes. -/
def shaK : List Nat :=
  [1116352408, 1899447441, 3049323471, 3921009573,
   961987163, 1508970993, 2453635748, 2870763221,
   3624381080, 310598401, 607225278, 1426881987,
   1925078388, 2162078206, 2614888103, 3248222580,
   3835390401, 4022224774, 264347078, 604807628,
   770255983, 1249150122, 1555081692, 1996064986,
   2554220882, 2821834349, 2952996808, 3210313671,
   3336571891, 3584528711, 113926993, 338241895,
   666307205, 773529912, 1294757372, 1396182291,
   1695183700, 1986661051, 2177026350, 2456956037,
   2730485921, 2820302411, 3259730800, 3345764771,
   3516065817, 3600352804, 4094571909, 275423344,
   430227734, 506948616, 659060556, 883997877,
   958139571, 1322822218, 1537002063, 1747873779,
   1955562222, 2024104815, 2227730452, 2361852424,
   2428436474, 2756734187, 3204031479, 3329325298]

/-- The eight 32-bit working variables / chaining values. -/
structure Sha256State where
  a : Nat
  b : Nat
  c : Nat
  d : Nat
  e : Nat
  f : Nat
  g : Nat
  h : Nat
deriving Repr, DecidableEq

/-- Initial hash value: fractional parts of the square roots of the first 8
primes. -/
def shaInit : Sha256State :=
  ⟨1779033703, 3144134277, 1013904242, 2773480762,
   1359893119, 2600822924, 528734635, 1541459225⟩

/-- One compression round. -/
def sha256Round (st : Sha256State) (k w : Nat) : Sha256State :=
  let S1 := (rotr 6 st.e) ^^^ (rotr 11 st.e) ^^^ (rotr 25 st.e)
  let ch := (st.e &&& st.f) ^^^ ((4294967295 ^^^ st.e) &&& st.g)
  let temp1 := w32 (st.h + S1 + ch + k + w)
  let S0 := (rotr 2 st.a) ^^^ (rotr 13 st.a) ^^^ (rotr 22 st.a)
  let maj := (st.a &&& st.b) ^^^ (st.a &&& st.c) ^^^ (st.b &&& st.c)
  let temp2 := w32 (S0 + maj)
  { a := w32 (temp1 + temp2), b := st.a, c := st.b, d := st.c,
    e := w32 (st.d + temp1), f := st.e, g := st.f, h := st.g }

/-- Big-endian 32-bit words from a byte list. -/
def bytesToWords : List Nat → List Nat
  | b0 :: b1 :: b2 :: b3 :: rest =>
    (((b0 * 256 + b1) * 256 + b2) * 256 + b3) :: bytesToWords rest
  | _ => []

/-- Extend the 16-word block to the 64-word message schedule (`n` remaining
extension steps). -/
def extendSchedule : Nat → Array Nat → Array Nat
  | 0, ws => ws
  | n + 1, ws =>
    let i := ws.size
    let w15 := ws.getD (i - 15) 0
    let w2 := ws.getD (i - 2) 0
    let s0 := (rotr 7 w15) ^^^ (rotr 18 w15) ^^^ (w15 >>> 3)
    let s1 := (rotr 17 w2) ^^^ (rotr 19 w2) ^^^ (w2 >>> 10)
    extendSchedule n
      (ws.push (w32 (ws.getD (i - 16) 0 + s0 + ws.getD (i - 7) 0 + s1)))

/-- Process one 64-byte chunk. -/
def processChunk (st : Sha256State) (chunk : List Nat) : Sha256State :=
  let ws := (extendSchedule 48 (Array.mk (bytesToWords chunk))).toList
  let t := (shaK.zip ws).foldl (fun s kw => sha256Round s kw.1 kw.2) st
  { a := w32 (st.a + t.a), b := w32 (st.b + t.b), c := w32 (st.c + t.c),
    d := w32 (st.d + t.d), e := w32 (st.e + t.e), f := w32 (st.f + t.f),
    g := w32 (st.g + t.g), h := w32 (st.h + t.h) }

/-- Big-endian 8-byte encoding of the 64-bit message bit length. -/
def beBytes8 (n : Nat) : List Nat :=
  [n >>> 56 % 256, n >>> 48 % 256, n >>> 40 % 256, n >>> 32 % 256,
   n >>> 24 % 256, n >>> 16 % 256, n >>> 8 % 256, n % 256]

/-- SHA-256 padding: `0x80`, zeros to 56 mod 64, 64-bit big-endian length. -/
def padMessage (msg : List Nat) : List Nat :=
  let L := msg.length
  let zeros := (120 - ((L + 1) % 64)) % 64
  msg ++ [128] ++ List.replicate zeros 0 ++ beBytes8 ((8 * L) % 2 ^ 64)

/-- Split into 64-byte chunks. -/
def chunks64 : List Nat → List (List Nat)
  | [] => []
  | c :: rest => (c :: rest.take 63) :: chunks64 (rest.drop 63)
termination_by l => l.length
decreasing_by
  simp only [List.length_drop, List.length_cons]
  omega

/-- The final chaining state of SHA-256 on a byte string. -/
def sha256Final (msg : List Nat) : Sha256State :=
  (chunks64 (padMessage msg)).foldl processChunk shaInit

/-- Lowercase hex digits. -/
def hexDigits : List Char := "0123456789abcdef".data

def toHexNibble (n : Nat) : Char := hexDigits.getD (n % 16) '0'

/-- Eight lowercase hex characters of one 32-bit word, big-endian. -/
def word32Hex (w : Nat) : String :=
  String.mk
    [toHexNibble (w / 268435456), toHexNibble (w / 16777216),
     toHexNibble (w / 1048576), toHexNibble (w / 65536),
     toHexNibble (w / 4096), toHexNibble (w / 256),
     toHexNibble (w / 16), toHexNibble w]

/-- `hashlib.sha256(x.encode()).hexdigest()`: 64 lowercase hex characters. -/
def sha256Hexdigest (s : String) : String :=
  let st := sha256Final (s.toUTF8.toList.map (fun b => b.toNat))
  word32Hex st.a ++ word32Hex st.b ++ word32Hex st.c ++ word32Hex st.d ++
    word32Hex st.e ++ word32Hex st.f ++ word32Hex st.g ++ word32Hex st.h

/-- Python's `[:16]` on a string: the first 16 characters. -/
def strTake16 (s : String) : String := String.mk (s.data.take 16)

/-- `differ.compute_data_hash`: project each entry to its id/status/prizes,
serialize with sorted keys, SHA-256, first 16 hex characters. -/
def compute_data_hash (reg : Registry) : String :=
  strTake16 (sha256Hexdigest (serializeHashable reg))

end Differ

/-! ## Association-list lemmas (dict semantics) -/

section AssocLemmas

variable {α : Type}

theorem getKey_nil (k : String) : getKey ([] : List (String × α)) k = none :=
  rfl

theorem getKey_cons (y : String × α) (ys : List (String × α)) (k : String) :
    getKey (y :: ys) k = if y.1 == k then some y.2 else getKey ys k := by
  simp only [getKey, List.find?_cons]
  cases h : y.1 == k <;> simp [h]

theorem hasKey_cons (y : String × α) (ys : List (String × α)) (k : String) :
    hasKey (y :: ys) k = ((y.1 == k) || hasKey ys k) := by
  simp [hasKey]

theorem hasKey_of_mem {l : List (String × α)} {kv : String × α} (h : kv ∈ l) :
    hasKey l kv.1 = true := by
  simp only [hasKey, List.any_eq_true]
  exact ⟨kv, h, by simp⟩

theorem getKey_eq_none_of_hasKey_eq_false {l : List (String × α)} {k : String}
    (h : hasKey l k = false) : getKey l k = none := by
  induction l with
  | nil => rfl
  | cons x xs ih =>
    rw [hasKey_cons, Bool.or_eq_false_iff] at h
    rw [getKey_cons, if_neg (by simp [h.1])]
    exact ih h.2

theorem getKey_replace_self {l : List (String × α)} {k : String} (v : α)
    (h : hasKey l k = true) :
    getKey (l.map (fun kv => if kv.1 == k then (k, v) else kv)) k = some v := by
  induction l with
  | nil => simp [hasKey] at h
  | cons x xs ih =>
    rw [hasKey_cons, Bool.or_eq_true] at h
    by_cases hx : x.1 = k
    · rw [List.map_cons, if_pos (by simp [hx]), getKey_cons,
        if_pos (by simp)]
    · have hxs : hasKey xs k = true := by
        rcases h with h | h
        · exact absurd (by simpa using h) hx
        · exact h
      rw [List.map_cons, if_neg (by simp [hx]), getKey_cons,
        if_neg (by simp [hx])]
      exact ih hxs

theorem getKey_replace_ne {l : List (String × α)} {k k' : String} (v : α)
    (h : k' ≠ k) :
    getKey (l.map (fun kv => if kv.1 == k then (k, v) else kv)) k' =
      getKey l k' := by
  induction l with
  | nil => rfl
  | cons x xs ih =>
    by_cases hx : x.1 = k
    · rw [List.map_cons, if_pos (by simp [hx]), getKey_cons,
        if_neg (by simp; exact fun hh => h hh.symm), getKey_cons,
        if_neg (by simp [hx]; exact fun hh => h hh.symm)]
      exact ih
    · rw [List.map_cons, if_neg (by simp [hx]), getKey_cons, getKey_cons]
      by_cases hx' : x.1 = k'
      · simp [hx']
      · rw [if_neg (by simp [hx']), if_neg (by simp [hx'])]
        exact ih

theorem getKey_append_single_self {l : List (String × α)} {k : String}
    (v : α) (h : hasKey l k = false) :
    getKey (l ++ [(k, v)]) k = some v := by
  induction l with
  | nil => simp [getKey]
  | cons x xs ih =>
    rw [hasKey_cons, Bool.or_eq_false_iff] at h
    rw [List.cons_append, getKey_cons, if_neg (by simp [h.1])]
    exact ih h.2

theorem getKey_append_single_ne {l : List (String × α)} {k k' : String}
    (v : α) (h : k' ≠ k) :
    getKey (l ++ [(k, v)]) k' = getKey l k' := by
  induction l with
  | nil => simp [getKey, Ne.symm h]
  | cons x xs ih =>
    rw [List.cons_append, getKey_cons, getKey_cons]
    by_cases hx : x.1 = k'
    · simp [hx]
    · rw [if_neg (by simp [hx]), if_neg (by simp [hx])]
      exact ih

theorem getKey_setKey_self (l : List (String × α)) (k : String) (v : α) :
    getKey (setKey l k v) k = some v := by
  unfold setKey
  by_cases h : hasKey l k = true
  · rw [if_pos h]
    exact getKey_replace_self v h
  · rw [if_neg h]
    exact getKey_append_single_self v (by simpa using h)

theorem getKey_setKey_ne (l : List (String × α)) (k k' : String) (v : α)
    (h : k' ≠ k) : getKey (setKey l k v) k' = getKey l k' := by
  unfold setKey
  by_cases hk : hasKey l k = true
  · rw [if_pos hk]
    exact getKey_replace_ne v h
  · rw [if_neg hk]
    exact getKey_append_single_ne v h

theorem hasKey_replace (l : List (String × α)) (k k' : String) (v : α) :
    hasKey (l.map (fun kv => if kv.1 == k then (k, v) else kv)) k' =
      hasKey l k' := by
  induction l with
  | nil => rfl
  | cons x xs ih =>
    by_cases hx : x.1 = k
    · rw [List.map_cons, if_pos (by simp [hx]), hasKey_cons, hasKey_cons, ih,
        hx]
    · rw [List.map_cons, if_neg (by simp [hx]), hasKey_cons, hasKey_cons, ih]

theorem hasKey_setKey (l : List (String × α)) (k k' : String) (v : α) :
    hasKey (setKey l k v) k' = (hasKey l k' || (k == k')) := by
  unfold setKey
  by_cases hk : hasKey l k = true
  · rw [if_pos hk, hasKey_replace]
    cases hkk : k == k'
    · simp
    · have : k = k' := by simpa using hkk
      simp [← this, hk]
  · rw [if_neg hk]
    simp [hasKey, List.any_append]

end AssocLemmas

namespace Notary

/-! ## Reconciler lemmas -/

/-- The last observed record carrying a given `game_id` (the record whose
observed fields win in the commit loop). -/
def lastMatch (games : List Game) (gid : String) : Option Game :=
  (games.filter (fun g => g.game_id == gid)).getLast?

theorem getLast?_cons_of_ne_nil {β : Type} {l : List β} (a : β)
    (h : l ≠ []) : (a :: l).getLast? = l.getLast? := by
  cases l with
  | nil => exact absurd rfl h
  | cons b bs => rfl

/-- The commit loop never touches entries whose id is absent from the
batch. -/
theorem commitFold_frame (now run_id : String) (fresh : Nat → String)
    (games : List Game) :
    ∀ (acc : Registry × Nat) (gid : String),
      gid ∉ games.map (fun g => g.game_id) →
      getKey (games.foldl (commitStep now run_id fresh) acc).1 gid =
        getKey acc.1 gid := by
  induction games with
  | nil => intro acc gid _; rfl
  | cons g gs ih =>
    intro acc gid h
    rw [List.map_cons, List.mem_cons] at h
    push_neg at h
    rw [List.foldl_cons, ih _ gid h.2]
    unfold commitStep
    cases hg : getKey acc.1 g.game_id with
    | some e => exact getKey_setKey_ne _ _ _ _ h.1
    | none => exact getKey_setKey_ne _ _ _ _ h.1

/-- After the commit loop, the entry of any id that occurs in the batch was
written by the LAST record of the batch with that id: it is ACTIVE, carries
that record's prizes, and has `miss_count = 0`, `last_seen = now`,
`last_run_id = run_id`. -/
theorem commitFold_last (now run_id : String) (fresh : Nat → String)
    (games : List Game) :
    ∀ (acc : Registry × Nat) (gid : String) (g : Game),
      lastMatch games gid = some g →
      ∃ e, getKey (games.foldl (commitStep now run_id fresh) acc).1 gid =
          some e ∧
        e.status = "ACTIVE" ∧ e.prizes = g.prizes ∧ e.miss_count = 0 ∧
        e.last_seen = now ∧ e.last_run_id = run_id := by
  induction games with
  | nil => intro acc gid g h; simp [lastMatch] at h
  | cons gm gs ih =>
    intro acc gid g h
    rw [List.foldl_cons]
    by_cases hgs : (gs.filter (fun x => x.game_id == gid)) = []
    · have hmatch : (gm.game_id == gid) = true := by
        by_contra hc
        unfold lastMatch at h
        rw [List.filter_cons, if_neg (by simpa using hc), hgs] at h
        exact absurd h (by simp)
      have hgid : gm.game_id = gid := by simpa using hmatch
      have hg : g = gm := by
        unfold lastMatch at h
        rw [List.filter_cons, if_pos (by simp [hmatch]), hgs] at h
        simpa using h.symm
      have habs : gid ∉ gs.map (fun x => x.game_id) := by
        intro hmem
        obtain ⟨x, hx, hxe⟩ := List.mem_map.mp hmem
        have : x ∈ gs.filter (fun y => y.game_id == gid) :=
          List.mem_filter.mpr ⟨hx, by simp [hxe]⟩
        rw [hgs] at this
        exact absurd this (List.not_mem_nil x)
      rw [commitFold_frame now run_id fresh gs _ gid habs]
      subst hg
      unfold commitStep
      cases hacc : getKey acc.1 g.game_id with
      | some e0 =>
        refine ⟨stasisUpdate e0 g now run_id, ?_, rfl, rfl, rfl, rfl, rfl⟩
        rw [← hgid]
        exact getKey_setKey_self _ _ _
      | none =>
        refine ⟨birthEntry g (fresh acc.2) now run_id, ?_, rfl, rfl, rfl,
          rfl, rfl⟩
        rw [← hgid]
        exact getKey_setKey_self _ _ _
    · have hlast : lastMatch gs gid = some g := by
        unfold lastMatch at h ⊢
        rw [List.filter_cons] at h
        cases hgm : (gm.game_id == gid) with
        | false => rw [if_neg (by simp [hgm])] at h; exact h
        | true =>
          rw [if_pos (by simp [hgm]), getLast?_cons_of_ne_nil _ hgs] at h
          exact h
      exact ih _ gid g hlast

/-- Lookup after the death sweep: the sweep is `sweptEntry` applied
pointwise. -/
theorem getKey_deathSweep (reg : Registry) (live : List String)
    (now gid : String) :
    getKey (deathSweep reg live now).1 gid =
      (getKey reg gid).map (fun e => sweptEntry live now (gid, e)) := by
  unfold deathSweep
  induction reg with
  | nil => rfl
  | cons x xs ih =>
    obtain ⟨k, e⟩ := x
    rw [List.map_cons, getKey_cons, getKey_cons]
    by_cases hk : k = gid
    · subst hk
      rw [if_pos (by simp [deathSweepEntry]), if_pos (by simp)]
      rfl
    · rw [if_neg (by simp [deathSweepEntry, hk]), if_neg (by simp [hk])]
      exact ih

/-- An id that occurs in the batch is alive (`live_ids`), so the sweep leaves
its entry alone. -/
theorem sweptEntry_of_mem_live {live : List String} {gid : String}
    (now : String) (e : Entry) (h : gid ∈ live) :
    sweptEntry live now (gid, e) = e := by
  unfold sweptEntry
  rw [if_neg]
  simp [h]

/-- A RETIRED entry is never touched by the sweep. -/
theorem sweptEntry_of_retired {live : List String} {gid : String}
    (now : String) {e : Entry} (h : e.status = "RETIRED") :
    sweptEntry live now (gid, e) = e := by
  unfold sweptEntry
  rw [if_neg]
  simp [h]

/-- What a committed run does: if `process_audit` returned `.ok out` with
`out.result = some reg'`, then the reconciled registry is the death sweep of
the commit loop applied to the loaded registry, and it is also what was
persisted. -/
theorem process_audit_ok_some (regFile : FileState Registry)
    (pulseFile : FileState (List PulseSample)) (games : List Game)
    (run_id : String) (kb : Int) (now : String) (fresh : Nat → String)
    (out : AuditOutcome) (reg' : Registry)
    (h : process_audit regFile pulseFile games run_id kb now fresh = .ok out)
    (hr : out.result = some reg') :
    reg' = (deathSweep (commitPhase (loadRegistry regFile) games now run_id
      fresh) (games.map (fun g => g.game_id)) now).1 ∧
    out.regFile = .stored reg' := by
  unfold process_audit at h
  cases hb : get_statistical_baseline pulseFile with
  | error e => rw [hb] at h; exact absurd h (by simp)
  | ok baseline =>
    rw [hb] at h
    simp only at h
    split at h
    · rename_i hgate
      have hout : out = ⟨none, regFile, pulseFile⟩ := by
        simpa using h.symm
      rw [hout] at hr
      exact absurd hr (by simp)
    · rename_i hgate
      have hout : out = commitRun (loadRegistry regFile) games run_id now kb
          pulseFile
          (calculate_total_wealth
            (buildTemp (wproj (loadRegistry regFile)) games).1)
          (calculate_top_prize_sum
            (buildTemp (wproj (loadRegistry regFile)) games).1)
          (buildTemp (wproj (loadRegistry regFile)) games).2 fresh := by
        cases baseline with
        | none => simpa using h.symm
        | some b =>
          dsimp only at h
          by_cases hz : (b.avg_wealth = 0 ∨ b.avg_games = 0)
          · rw [if_pos hz] at h
            exact Except.noConfusion h
          · rw [if_neg hz] at h
            simpa using h.symm
      rw [hout] at hr
      unfold commitRun at hr
      simp only [Option.some_inj] at hr
      constructor
      · exact hr.symm
      · rw [hout]
        unfold commitRun
        simp [hr]

theorem contains_eq_false_of_not_mem {l : List String} {a : String}
    (h : a ∉ l) : l.contains a = false := by
  simp [List.contains, h]

theorem lastMatch_isSome_of_mem {games : List Game} {gid : String}
    (h : gid ∈ games.map (fun g => g.game_id)) :
    ∃ g, lastMatch games gid = some g := by
  obtain ⟨x, hx, hxe⟩ := List.mem_map.mp h
  have hne : games.filter (fun g => g.game_id == gid) ≠ [] := by
    intro hnil
    have hmem : x ∈ games.filter (fun g => g.game_id == gid) :=
      List.mem_filter.mpr ⟨hx, by simp [hxe]⟩
    rw [hnil] at hmem
    exact absurd hmem (List.not_mem_nil x)
  have := List.getLast?_isSome.mpr hne
  obtain ⟨g, hg⟩ := Option.isSome_iff_exists.mp this
  exact ⟨g, hg⟩

/-- Effect of one committed run on an entry whose id is absent from the
batch: the commit loop leaves it alone and the sweep applies `sweptEntry`. -/
theorem run_effect_absent (reg : Registry) (games : List Game)
    (run_id now : String) (fresh : Nat → String) (gid : String) (e : Entry)
    (hget : getKey reg gid = some e)
    (habs : gid ∉ games.map (fun g => g.game_id)) :
    getKey (deathSweep (commitPhase reg games now run_id fresh)
      (games.map (fun g => g.game_id)) now).1 gid =
      some (sweptEntry (games.map (fun g => g.game_id)) now (gid, e)) := by
  rw [getKey_deathSweep]
  unfold commitPhase
  rw [commitFold_frame now run_id fresh games (reg, 0) gid habs, hget]
  rfl

/-- The sweep on an ACTIVE entry that is absent from the batch: bump
`miss_count`, retiring at 3. -/
theorem sweptEntry_of_active_absent {live : List String} {gid : String}
    (now : String) (e : Entry) (hst : e.status = "ACTIVE")
    (habs : gid ∉ live) :
    sweptEntry live now (gid, e) =
      if e.miss_count + 1 ≥ 3 then
        { e with miss_count := e.miss_count + 1, status := "RETIRED",
                 death_date := some now }
      else { e with miss_count := e.miss_count + 1 } := by
  unfold sweptEntry
  have hcond : (((gid, e) : String × Entry).2.status == "ACTIVE" &&
      !live.contains ((gid, e) : String × Entry).1) = true := by
    simp [hst, List.contains, habs]
  rw [if_pos hcond]

end Notary

/-! ## Concrete inputs used by witnesses and counterexamples -/

/-- A prize row with a `value` and a `total` field only. -/
def mkPrize (v t : String) : Prize := ⟨some v, none, some t, none⟩

/-- A registry entry with every schema field present, to be specialized. -/
def baseEntry : Entry :=
  { guid := "g-0", game_id := "0", game_name := "Base", product_key := "base",
    url_slug := "base", overall_odds := "Unknown", prizes := [],
    status := "ACTIVE", first_seen := "2025-01-01", last_seen := "2025-01-01",
    miss_count := 0, death_date := none, last_run_id := "run-0" }

/-! ## C1: the hard integrity gate -/

/-- An existing registry worth exactly 1,000,000. -/
def c1Reg : Registry :=
  [("996", { baseEntry with
    game_id := "996"
    game_name := "Million"
    prizes := [mkPrize "1000000" "1"] })]

/-- A batch that takes the candidate registry to exactly 750,000 — exactly
75% of the old wealth. -/
def c1BoundaryGame : Game := ⟨"996", "Million", "million", [mkPrize "750000" "1"]⟩

/-- C1, counterexample.  The claim says a drop to AT MOST 75% of the old
wealth (e.g. 1,000,000 → 750,000) aborts the run.  The code's gate is the
strict `new_wealth < old_wealth * 0.75`, so at exactly 75% (old wealth
1,000,000, candidate wealth 750,000) `process_audit` does NOT abort: it
commits and returns the updated registry. -/
theorem c1_counterexample :
    Notary.calculate_total_wealth (Notary.wproj c1Reg) = 1000000 ∧
    Notary.calculate_total_wealth
      (Notary.buildTemp (Notary.wproj c1Reg) [c1BoundaryGame]).1 = 750000 ∧
    (match Notary.process_audit (.stored c1Reg) .missing [c1BoundaryGame]
        "run-cex" 0 "2026-01-01T00:00:00" (fun _ => "uuid-0") with
     | .ok o => o.result.isSome
     | .error _ => false) = true := by
  refine ⟨by decide, by decide, by decide⟩

/-- C1, amended: if the persisted registry has positive wealth and the
candidate registry's wealth is STRICTLY below 75% of it, `process_audit`
aborts: it returns the failure signal (`None`) and both the persisted
Registry file and the PulseHistory file are left exactly as they were.
(The only other assumption is that the pulse file is parseable, since
`process_audit` reads the baseline — and would raise — before the gate.) -/
theorem c1_theorem (regFile : FileState Registry)
    (pulseFile : FileState (List PulseSample)) (games : List Game)
    (run_id : String) (kb : Int) (now : String) (fresh : Nat → String)
    (hp : pulseFile ≠ .corrupt)
    (hpos : 0 < Notary.calculate_total_wealth
      (Notary.wproj (Notary.loadRegistry regFile)))
    (hdrop : 4 * Notary.calculate_total_wealth
        (Notary.buildTemp (Notary.wproj (Notary.loadRegistry regFile))
          games).1 <
      3 * Notary.calculate_total_wealth
        (Notary.wproj (Notary.loadRegistry regFile))) :
    Notary.process_audit regFile pulseFile games run_id kb now fresh =
      .ok ⟨none, regFile, pulseFile⟩ := by
  unfold Notary.process_audit
  cases pulseFile with
  | corrupt => exact absurd rfl hp
  | missing =>
    dsimp only [Notary.get_statistical_baseline]
    rw [if_pos ⟨hpos, hdrop⟩]
  | stored hist =>
    dsimp only [Notary.get_statistical_baseline]
    by_cases hl : hist.length < 3
    · rw [if_pos hl]
      dsimp only
      rw [if_pos ⟨hpos, hdrop⟩]
    · rw [if_neg hl]
      dsimp only
      rw [if_pos ⟨hpos, hdrop⟩]

/-- A batch dropping the candidate wealth to 700,000, strictly below 75%. -/
def c1DropGame : Game := ⟨"996", "Million", "million", [mkPrize "700000" "1"]⟩

theorem c1_witness :
    Notary.process_audit (.stored c1Reg) .missing [c1DropGame] "run-w" 0
      "2026-01-01T00:00:00" (fun _ => "uuid-0") =
      .ok ⟨none, .stored c1Reg, .missing⟩ :=
  c1_theorem (.stored c1Reg) .missing [c1DropGame] "run-w" 0
    "2026-01-01T00:00:00" (fun _ => "uuid-0") (by decide) (by decide)
    (by decide)

/-! ## C2: RETIRED is not terminal — reappearance revives -/

/-- A retired entry whose id is about to reappear. -/
def c2RetiredEntry : Entry :=
  { baseEntry with
    game_id := "996"
    game_name := "Million"
    status := "RETIRED"
    miss_count := 3
    death_date := some "2025-06-01T00:00:00" }

def c2Game : Game := ⟨"996", "Million", "million", [mkPrize "100" "1"]⟩

/-- C2, counterexample.  The claim says an entry with status RETIRED whose
external_id reappears in a later observed batch keeps status RETIRED.  In the
code the STASIS branch executes `registry[gid].update({"status": "ACTIVE"})`
for every observed id, so the retired entry `"996"` comes back ACTIVE. -/
theorem c2_counterexample :
    (match Notary.process_audit (.stored [("996", c2RetiredEntry)]) .missing
        [c2Game] "run-cex" 0 "2026-01-01T00:00:00" (fun _ => "uuid-0") with
     | .ok o => (getKey (o.result.getD []) "996").map Entry.status
     | .error _ => none) = some "ACTIVE" := by decide

/-- C2, amended: status transitions are ACTIVE→RETIRED on the third
consecutive miss AND RETIRED→ACTIVE on reappearance: the commit loop forces
`status = "ACTIVE"` for every id observed in the batch, whatever its previous
status, so after any committed run every batch id (a reappeared RETIRED one
in particular) has status ACTIVE. -/
theorem c2_theorem (regFile : FileState Registry)
    (pulseFile : FileState (List PulseSample)) (games : List Game)
    (run_id : String) (kb : Int) (now : String) (fresh : Nat → String)
    (out : Notary.AuditOutcome) (reg' : Registry) (gid : String)
    (hmem : gid ∈ games.map (fun g => g.game_id))
    (h : Notary.process_audit regFile pulseFile games run_id kb now fresh =
      .ok out)
    (hr : out.result = some reg') :
    (getKey reg' gid).map Entry.status = some "ACTIVE" := by
  obtain ⟨hreg, -⟩ :=
    Notary.process_audit_ok_some _ _ _ _ _ _ _ _ _ h hr
  subst hreg
  rw [Notary.getKey_deathSweep]
  obtain ⟨g, hg⟩ := Notary.lastMatch_isSome_of_mem hmem
  obtain ⟨e, he, hst, -, -, -, -⟩ :=
    Notary.commitFold_last now run_id fresh games
      (Notary.loadRegistry regFile, 0) gid g hg
  unfold Notary.commitPhase
  rw [he]
  simp [Notary.sweptEntry_of_mem_live now e hmem, hst]

def c2wAudit : Except PyErr Notary.AuditOutcome :=
  Notary.process_audit (.stored [("996", c2RetiredEntry)]) .missing [c2Game]
    "run-w" 0 "2026-01-02T00:00:00" (fun _ => "uuid-1")

def c2wOut : Notary.AuditOutcome := c2wAudit.toOption.getD ⟨none, .missing, .missing⟩

def c2wReg : Registry := c2wOut.result.getD []

theorem c2_witness : (getKey c2wReg "996").map Entry.status = some "ACTIVE" :=
  c2_theorem (.stored [("996", c2RetiredEntry)]) .missing [c2Game] "run-w" 0
    "2026-01-02T00:00:00" (fun _ => "uuid-1") c2wOut c2wReg "996" (by decide)
    rfl rfl

/-! ## C9: a RETIRED entry absent from the batch is completely untouched -/

/-- C9: once an entry is RETIRED, a committed run whose batch does not
contain its external_id leaves the entry equal to what it was, field for
field: the commit loop only touches batch ids and the death sweep only
touches ACTIVE entries. -/
theorem c9_theorem (regFile : FileState Registry)
    (pulseFile : FileState (List PulseSample)) (games : List Game)
    (run_id : String) (kb : Int) (now : String) (fresh : Nat → String)
    (out : Notary.AuditOutcome) (reg' : Registry) (gid : String) (e : Entry)
    (hget : getKey (Notary.loadRegistry regFile) gid = some e)
    (hst : e.status = "RETIRED")
    (habs : gid ∉ games.map (fun g => g.game_id))
    (h : Notary.process_audit regFile pulseFile games run_id kb now fresh =
      .ok out)
    (hr : out.result = some reg') :
    getKey reg' gid = some e := by
  obtain ⟨hreg, -⟩ :=
    Notary.process_audit_ok_some _ _ _ _ _ _ _ _ _ h hr
  subst hreg
  rw [Notary.run_effect_absent _ _ _ _ _ _ _ hget habs,
    Notary.sweptEntry_of_retired now hst]

/-- A RETIRED entry that stays absent, next to a live game that keeps the
run going. -/
def c9RetiredEntry : Entry :=
  { baseEntry with
    game_id := "777"
    game_name := "Gone"
    product_key := "gone"
    url_slug := "gone"
    guid := "guid-gone"
    status := "RETIRED"
    miss_count := 5
    death_date := some "2025-03-03T00:00:00"
    prizes := [mkPrize "50" "2"] }

def c9Game : Game := ⟨"10", "Live Game", "live-game", [mkPrize "10" "3"]⟩

def c9wAudit : Except PyErr Notary.AuditOutcome :=
  Notary.process_audit (.stored [("777", c9RetiredEntry)]) .missing [c9Game]
    "run-w9" 0 "2026-02-02T00:00:00" (fun _ => "uuid-9")

def c9wOut : Notary.AuditOutcome := c9wAudit.toOption.getD ⟨none, .missing, .missing⟩

def c9wReg : Registry := c9wOut.result.getD []

theorem c9_witness : getKey c9wReg "777" = some c9RetiredEntry :=
  c9_theorem (.stored [("777", c9RetiredEntry)]) .missing [c9Game] "run-w9" 0
    "2026-02-02T00:00:00" (fun _ => "uuid-9") c9wOut c9wReg "777"
    c9RetiredEntry rfl rfl (by decide) rfl rfl

/-! ## C3: death timing -/

/-- Effect of one committed run on an ACTIVE entry absent from the batch:
`miss_count` is bumped, and the entry retires (with `death_date = now`)
exactly when the bumped count reaches 3. -/
theorem run_bump (regFile : FileState Registry)
    (pulseFile : FileState (List PulseSample)) (games : List Game)
    (run_id : String) (kb : Int) (now : String) (fresh : Nat → String)
    (out : Notary.AuditOutcome) (reg' : Registry) (gid : String) (e : Entry)
    (hget : getKey (Notary.loadRegistry regFile) gid = some e)
    (hst : e.status = "ACTIVE")
    (habs : gid ∉ games.map (fun g => g.game_id))
    (h : Notary.process_audit regFile pulseFile games run_id kb now fresh =
      .ok out)
    (hr : out.result = some reg') :
    getKey reg' gid = some (
      if e.miss_count + 1 ≥ 3 then
        { e with miss_count := e.miss_count + 1, status := "RETIRED",
                 death_date := some now }
      else { e with miss_count := e.miss_count + 1 }) := by
  obtain ⟨hreg, -⟩ :=
    Notary.process_audit_ok_some _ _ _ _ _ _ _ _ _ h hr
  subst hreg
  rw [Notary.run_effect_absent _ _ _ _ _ _ _ hget habs,
    Notary.sweptEntry_of_active_absent now e hst habs]

/-- C3: an entry that is ACTIVE with `miss_count = 0` and `death_date = null`
and whose id is absent from three consecutive committed runs stays ACTIVE
with `miss_count` 1 then 2 and `death_date` still null after the first two
runs, and after the third run is RETIRED with `miss_count` 3 and the
non-null `death_date` of that run. -/
theorem c3_theorem (R0 : Registry) (gid : String) (e : Entry)
    (p1 p2 p3 : FileState (List PulseSample))
    (games1 games2 games3 : List Game) (rid1 rid2 rid3 : String)
    (kb1 kb2 kb3 : Int) (now1 now2 now3 : String)
    (fr1 fr2 fr3 : Nat → String)
    (out1 out2 out3 : Notary.AuditOutcome) (R1 R2 R3 : Registry)
    (hget : getKey R0 gid = some e) (hA : e.status = "ACTIVE")
    (hm : e.miss_count = 0) (hd : e.death_date = none)
    (ha1 : gid ∉ games1.map (fun g => g.game_id))
    (h1 : Notary.process_audit (.stored R0) p1 games1 rid1 kb1 now1 fr1 =
      .ok out1)
    (hr1 : out1.result = some R1)
    (ha2 : gid ∉ games2.map (fun g => g.game_id))
    (h2 : Notary.process_audit (.stored R1) p2 games2 rid2 kb2 now2 fr2 =
      .ok out2)
    (hr2 : out2.result = some R2)
    (ha3 : gid ∉ games3.map (fun g => g.game_id))
    (h3 : Notary.process_audit (.stored R2) p3 games3 rid3 kb3 now3 fr3 =
      .ok out3)
    (hr3 : out3.result = some R3) :
    (getKey R1 gid).map (fun x => (x.status, x.miss_count, x.death_date)) =
      some ("ACTIVE", 1, none) ∧
    (getKey R2 gid).map (fun x => (x.status, x.miss_count, x.death_date)) =
      some ("ACTIVE", 2, none) ∧
    (getKey R3 gid).map (fun x => (x.status, x.miss_count, x.death_date)) =
      some ("RETIRED", 3, some now3) := by
  have k1 := run_bump (.stored R0) p1 games1 rid1 kb1 now1 fr1 out1 R1 gid e
    hget hA ha1 h1 hr1
  rw [hm] at k1
  norm_num at k1
  have k2 := run_bump (.stored R1) p2 games2 rid2 kb2 now2 fr2 out2 R2 gid
    { e with miss_count := 1 } k1 hA ha2 h2 hr2
  norm_num at k2
  have k3 := run_bump (.stored R2) p3 games3 rid3 kb3 now3 fr3 out3 R3 gid
    { e with miss_count := 2 } k2 hA ha3 h3 hr3
  norm_num at k3
  refine ⟨?_, ?_, ?_⟩
  · rw [k1]
    simp [hA, hd]
  · rw [k2]
    simp [hA, hd]
  · rw [k3]
    simp

def c3Entry : Entry :=
  { baseEntry with
    game_id := "5"
    game_name := "Fading Game"
    status := "ACTIVE"
    miss_count := 0
    death_date := none
    prizes := [mkPrize "10" "1"] }

def c3R0 : Registry := [("5", c3Entry)]

def c3O1 : Notary.AuditOutcome :=
  (Notary.process_audit (.stored c3R0) .missing [] "r1" 0 "T1"
    (fun _ => "u1")).toOption.getD ⟨none, .missing, .missing⟩

def c3R1 : Registry := c3O1.result.getD []

def c3O2 : Notary.AuditOutcome :=
  (Notary.process_audit (.stored c3R1) .missing [] "r2" 0 "T2"
    (fun _ => "u2")).toOption.getD ⟨none, .missing, .missing⟩

def c3R2 : Registry := c3O2.result.getD []

def c3O3 : Notary.AuditOutcome :=
  (Notary.process_audit (.stored c3R2) .missing [] "r3" 0 "T3"
    (fun _ => "u3")).toOption.getD ⟨none, .missing, .missing⟩

def c3R3 : Registry := c3O3.result.getD []

theorem c3_witness :
    (getKey c3R1 "5").map (fun x => (x.status, x.miss_count, x.death_date)) =
      some ("ACTIVE", 1, none) ∧
    (getKey c3R2 "5").map (fun x => (x.status, x.miss_count, x.death_date)) =
      some ("ACTIVE", 2, none) ∧
    (getKey c3R3 "5").map (fun x => (x.status, x.miss_count, x.death_date)) =
      some ("RETIRED", 3, some "T3") :=
  c3_theorem c3R0 "5" c3Entry .missing .missing .missing [] [] [] "r1" "r2"
    "r3" 0 0 0 "T1" "T2" "T3" (fun _ => "u1") (fun _ => "u2") (fun _ => "u3")
    c3O1 c3O2 c3O3 c3R1 c3R2 c3R3 rfl rfl rfl rfl (by decide) rfl rfl
    (by decide) rfl rfl (by decide) rfl rfl

/-! ## C5: corrupt persisted state -/

def c5Game : Game := ⟨"42", "Some Game", "some-game", [mkPrize "5" "4"]⟩

/-- C5: the claim is only half true, and the failing half is a code bug.
A missing or corrupt Registry file is indeed treated as the empty initial
state and the run completes (first two conjuncts).  But a corrupt
PulseHistory file is fatal: `get_statistical_baseline` is the one load site
whose `json.load` is not wrapped in a `try`, so `process_audit` raises
`json.JSONDecodeError` before doing anything (third conjunct) — against the
spec's stated policy and against the same file's handling in
`update_pulse`. -/
theorem c5_theorem :
    ((match Notary.process_audit .missing .missing [c5Game] "r5" 0 "N5"
        (fun _ => "u5") with
      | .ok o => o.result.isSome
      | .error _ => false) = true) ∧
    ((match Notary.process_audit .corrupt .missing [c5Game] "r5" 0 "N5"
        (fun _ => "u5") with
      | .ok o => o.result.isSome
      | .error _ => false) = true) ∧
    (Notary.process_audit .missing .corrupt [c5Game] "r5" 0 "N5"
      (fun _ => "u5") = .error .jsonDecodeError) := by
  refine ⟨by decide, by decide, by decide⟩

/-! ## C6: the statistical gate -/

/-- A pulse sample of a run that observed nothing: zero wealth, zero games. -/
def c6ZeroSample : PulseSample := ⟨"z", "t", 0, 0, 0, 0, 0, 0⟩

/-- A pulse sample with nonzero wealth and game count. -/
def c6RichSample : PulseSample := ⟨"w", "t", 2, 10, 10, 0, 0, 0⟩

/-- C6: the statistical check is advisory in its comparison — a 100% wealth
deviation from the baseline still commits (second conjunct) — but it is NOT
exception-free: `wealth_diff` and `game_diff` divide by the baseline
averages with no guard, so a stored baseline of three all-zero samples makes
`process_audit` raise `ZeroDivisionError` (first conjunct), where the claim
(and the spec's 'never fatal, advisory only') requires the run to commit. -/
theorem c6_theorem :
    (Notary.process_audit .missing
      (.stored [c6ZeroSample, c6ZeroSample, c6ZeroSample]) [] "r6" 0 "N6"
      (fun _ => "u6") = .error .zeroDivisionError) ∧
    ((match Notary.process_audit .missing
        (.stored [c6RichSample, c6RichSample, c6RichSample]) [] "r6" 0 "N6"
        (fun _ => "u6") with
      | .ok o => o.result.isSome
      | .error _ => false) = true) := by
  constructor
  · simp [Notary.process_audit, Notary.get_statistical_baseline,
      c6ZeroSample, Notary.loadRegistry, Notary.wproj, Notary.buildTemp,
      Notary.calculate_total_wealth, Notary.calculate_top_prize_sum]
  · unfold Notary.process_audit
    rw [show Notary.get_statistical_baseline
        (.stored [c6RichSample, c6RichSample, c6RichSample]) =
        .ok (some ⟨10, 2, 3⟩) by
      unfold Notary.get_statistical_baseline
      dsimp only
      rw [if_neg (by norm_num)]
      simp only [Except.ok.injEq, Option.some_inj, Notary.Baseline.mk.injEq,
        c6RichSample]
      norm_num]
    dsimp only
    rw [if_neg (by decide), if_neg (by norm_num)]
    simp [Notary.commitRun]

/-! ## C8: delta no-op identity -/

namespace Differ

theorem zip_self {β : Type} (l : List β) :
    l.zip l = l.map (fun a => (a, a)) := by
  induction l with
  | nil => rfl
  | cons x xs ih => simp [ih]

theorem tierChange_self (gid gname : String) (i : Nat) (p : Prize)
    (hp : (pyIntRaise p.total).isOk = true) :
    tierChange gid gname i p p = .ok none := by
  unfold tierChange
  cases h : pyIntRaise p.total with
  | error e => rw [h] at hp; simp [Except.isOk, Except.toBool] at hp
  | ok n =>
    dsimp only [Bind.bind, Except.bind]
    rw [if_neg (fun hc : n ≠ n => hc rfl)]
    rfl

theorem collectTierChanges_self (gid gname : String) (ps : List Prize)
    (hp : ∀ p ∈ ps, (pyIntRaise p.total).isOk = true) :
    ∀ i, collectTierChanges gid gname i (ps.zip ps) = .ok [] := by
  induction ps with
  | nil => intro i; rfl
  | cons p rest ih =>
    intro i
    simp only [List.zip_cons_cons]
    unfold collectTierChanges
    dsimp only
    rw [tierChange_self gid gname i p (hp p (by simp)),
      ih (fun q hq => hp q (by simp [hq])) (i + 1)]
    rfl

theorem getKey_mem {l : List (String × Entry)} {k : String} {e : Entry}
    (h : getKey l k = some e) : ∃ kv ∈ l, kv.2 = e := by
  unfold getKey at h
  cases hf : l.find? (fun kv => kv.1 == k) with
  | none => rw [hf] at h; exact absurd h (by simp)
  | some kv =>
    rw [hf] at h
    exact ⟨kv, List.mem_of_find?_eq_some hf, by simpa using h⟩

theorem gamePrizeChanges_self (R : Registry) (gid : String)
    (hp : ∀ kv ∈ R, ∀ p ∈ kv.2.prizes, (pyIntRaise p.total).isOk = true) :
    gamePrizeChanges R R gid = .ok [] := by
  unfold gamePrizeChanges
  apply collectTierChanges_self
  intro p hmem
  unfold lookupE at hmem
  cases hg : getKey R gid with
  | none =>
    rw [hg] at hmem
    exact absurd hmem (List.not_mem_nil p)
  | some e =>
    rw [hg] at hmem
    obtain ⟨kv, hkv, hkve⟩ := getKey_mem hg
    exact hp kv hkv p (by rw [hkve]; simpa using hmem)

theorem prizeChangesAll_self (R : Registry)
    (hp : ∀ kv ∈ R, ∀ p ∈ kv.2.prizes, (pyIntRaise p.total).isOk = true) :
    ∀ gids, prizeChangesAll R R gids = .ok [] := by
  intro gids
  induction gids with
  | nil => rfl
  | cons g rest ih =>
    unfold prizeChangesAll
    rw [gamePrizeChanges_self R g hp, ih]
    rfl

theorem gamesAddedOf_self (R : Registry) : gamesAddedOf R R = [] := by
  unfold gamesAddedOf
  rw [List.filter_eq_nil_iff.mpr, List.map_nil]
  intro kv hkv
  simp [hasKey_of_mem hkv]

theorem gamesRetiredMissing_self (R : Registry) :
    gamesRetiredMissing R R = [] := by
  unfold gamesRetiredMissing
  rw [List.filter_eq_nil_iff.mpr, List.map_nil]
  intro kv hkv
  simp [hasKey_of_mem hkv]

theorem gamesRetiredStatus_self (R : Registry) :
    gamesRetiredStatus R R = [] := by
  unfold gamesRetiredStatus
  rw [List.filterMap_eq_nil_iff.mpr]
  intro gid hgid
  simp

end Differ

/-- C8: for every registry whose prize `total` fields parse as integers (the
data-model invariant: `remaining_count` is a non-negative integer; absent
fields default to 0) and every run_id, `compute_delta(R, R, run_id)` yields
empty `games_added`, `games_retired`, `prize_changes`, `wealth_delta = 0`,
and `has_meaningful_changes` is false. -/
theorem c8_theorem (R : Registry) (run_id : String)
    (hp : ∀ kv ∈ R, ∀ p ∈ kv.2.prizes,
      (Differ.pyIntRaise p.total).isOk = true) :
    ∃ d, Differ.compute_delta R R run_id = .ok d ∧
      d.games_added = [] ∧ d.games_retired = [] ∧ d.prize_changes = [] ∧
      d.wealth_delta = 0 ∧ Differ.has_meaningful_changes d = false := by
  have hmain : Differ.compute_delta R R run_id = .ok
      { run_id := run_id, games_added := [], games_retired := [],
        prize_changes := [],
        wealth_before := Differ.calculate_total_wealth_diff R,
        wealth_after := Differ.calculate_total_wealth_diff R,
        wealth_delta := 0 } := by
    unfold Differ.compute_delta Differ.prizeChangesOf
    rw [Differ.prizeChangesAll_self R hp]
    dsimp only
    rw [Differ.gamesAddedOf_self, Differ.gamesRetiredMissing_self,
      Differ.gamesRetiredStatus_self]
    simp
  exact ⟨_, hmain, rfl, rfl, rfl, rfl, rfl⟩

/-- A registry with an ACTIVE and a RETIRED entry and parseable totals. -/
def c8Reg : Registry :=
  [("996", { baseEntry with
      game_id := "996"
      game_name := "Big Game"
      prizes := [mkPrize "1000" "10", mkPrize "50" "200"] }),
   ("777", { baseEntry with
      game_id := "777"
      game_name := "Old Game"
      status := "RETIRED"
      prizes := [mkPrize "25" "0"] })]

theorem c8_witness :
    ∃ d, Differ.compute_delta c8Reg c8Reg "run-8" = .ok d ∧
      d.games_added = [] ∧ d.games_retired = [] ∧ d.prize_changes = [] ∧
      d.wealth_delta = 0 ∧ Differ.has_meaningful_changes d = false :=
  c8_theorem c8Reg "run-8" (by decide)

/-! ## C4: the two wealth calculators -/

/-- A registry whose only entry is ACTIVE with a `$`-prefixed prize value:
the Notary's cleaner strips the `$`, the Differ's comma-only cleaner does
not, so the Differ's `int()` raises and the prize silently contributes 0. -/
def c4DollarReg : Registry :=
  [("1", { baseEntry with
    game_id := "1"
    game_name := "Dollar Game"
    prizes := [mkPrize "$100" "2"] })]

/-- A registry whose only entry is RETIRED: the Notary's sum skips it, the
Differ's sum (which never looks at `status`) counts it. -/
def c4RetiredReg : Registry :=
  [("2", { baseEntry with
    game_id := "2"
    game_name := "Retired Game"
    status := "RETIRED"
    prizes := [mkPrize "100" "2"] })]

/-- C4, counterexample.  The claim says the Differ's internal wealth function
agrees with the Notary's `calculate_total_wealth` on every registry,
including `$`-prefixed values and RETIRED entries.  Both cited cases refute
it: on `c4DollarReg` the Notary computes 200 and the Differ 0 (so
`compute_delta`'s `wealth_before` is 0, not the Wealth Calculator's 200);
on `c4RetiredReg` the Notary computes 0 and the Differ 200. -/
theorem c4_counterexample :
    (Notary.calculate_total_wealth (Notary.wproj c4DollarReg) = 200 ∧
     Differ.calculate_total_wealth_diff c4DollarReg = 0 ∧
     (match Differ.compute_delta c4DollarReg c4DollarReg "r4" with
      | .ok d => d.wealth_before
      | .error _ => -1) = 0) ∧
    (Notary.calculate_total_wealth (Notary.wproj c4RetiredReg) = 0 ∧
     Differ.calculate_total_wealth_diff c4RetiredReg = 200) := by
  exact ⟨⟨by decide, by decide, by decide⟩, by decide, by decide⟩

/-- Nonempty, ASCII-digits-only string: the common sublanguage on which the
Notary's `re.sub(r'[^\d]','')`-cleaner, the Differ's comma-stripper, and
`int()` all agree. -/
def digitStr (s : String) : Bool :=
  !s.data.isEmpty && s.data.all Char.isDigit

/-- A prize whose `value` and `total` are present digit-only strings. -/
def cleanPrizeB (p : Prize) : Bool :=
  (match p.value with | some v => digitStr v | none => false) &&
  (match p.total with | some t => digitStr t | none => false)

/-- A registry all of whose entries are ACTIVE with clean prizes. -/
def cleanRegB (R : Registry) : Bool :=
  R.all (fun kv => kv.2.status == "ACTIVE" && kv.2.prizes.all cleanPrizeB)

theorem intParse_digits {s : String} (h1 : s.data ≠ [])
    (h2 : s.data.all Char.isDigit = true) :
    intParse s = some ((digitsVal s.data : Int)) := by
  unfold intParse
  split
  · next heq => exact absurd heq h1
  · next rest heq =>
    rw [heq] at h2
    simp [List.all_cons] at h2
  · next rest heq =>
    rw [heq] at h2
    simp [List.all_cons] at h2
  · next cs hne1 hne2 hne3 =>
    rw [if_pos h2]

theorem stripNonDigits_digits {s : String} (h : digitStr s = true) :
    stripNonDigits s = s := by
  unfold digitStr at h
  rw [Bool.and_eq_true] at h
  unfold stripNonDigits
  rw [List.filter_eq_self.mpr (by simpa using h.2)]

theorem removeCommas_digits {s : String} (h : digitStr s = true) :
    removeCommas s = s := by
  unfold digitStr at h
  rw [Bool.and_eq_true] at h
  unfold removeCommas
  have hcl : s.data.filter (fun c => c ≠ ',') = s.data := by
    apply List.filter_eq_self.mpr
    intro c hc
    have hd : c.isDigit = true := (List.all_eq_true.mp h.2) c hc
    have hne : c ≠ ',' := by
      intro hcc
      rw [hcc] at hd
      exact absurd hd (by decide)
    simpa using hne
  rw [hcl]

theorem digitStr_ne_nil {s : String} (h : digitStr s = true) :
    s.data ≠ [] := by
  unfold digitStr at h
  rw [Bool.and_eq_true] at h
  simpa using h.1

theorem digitStr_all {s : String} (h : digitStr s = true) :
    s.data.all Char.isDigit = true := by
  unfold digitStr at h
  rw [Bool.and_eq_true] at h
  exact h.2

/-- On clean prizes the Differ's per-prize term agrees with the Notary's. -/
theorem contribution_eq_of_clean {p : Prize} (h : cleanPrizeB p = true) :
    Differ.differPrizeContribution p = Notary.prizeContribution p := by
  unfold cleanPrizeB at h
  rw [Bool.and_eq_true] at h
  obtain ⟨hv, ht⟩ := h
  cases hpv : p.value with
  | none => rw [hpv] at hv; exact absurd hv (by simp)
  | some v =>
    cases hpt : p.total with
    | none => rw [hpt] at ht; exact absurd ht (by simp)
    | some t =>
      rw [hpv] at hv
      rw [hpt] at ht
      simp only at hv ht
      unfold Differ.differPrizeContribution Notary.prizeContribution
      rw [hpv, hpt]
      unfold Differ.pyStrField
      simp only [Option.getD_some]
      dsimp only [Bind.bind, Option.bind]
      rw [removeCommas_digits hv, removeCommas_digits ht,
        stripNonDigits_digits hv]

/-- The Notary's accumulating loop as a `sum` over a `map`. -/
theorem calculate_total_wealth_eq_sum (l : List (String × WEntry)) :
    Notary.calculate_total_wealth l =
      (l.map (fun kv => if kv.2.status == "ACTIVE" then
        (kv.2.prizes.map Notary.prizeContribution).sum else 0)).sum := by
  unfold Notary.calculate_total_wealth
  suffices haux : ∀ (acc : Int), l.foldl
      (fun acc kv => if kv.2.status == "ACTIVE" then
        acc + (kv.2.prizes.map Notary.prizeContribution).sum else acc) acc =
      acc + (l.map (fun kv => if kv.2.status == "ACTIVE" then
        (kv.2.prizes.map Notary.prizeContribution).sum else 0)).sum by
    simpa using haux 0
  induction l with
  | nil => intro acc; simp
  | cons kv rest ih =>
    intro acc
    rw [List.foldl_cons, List.map_cons, List.sum_cons]
    cases hst : (kv.2.status == "ACTIVE")
    · rw [if_neg (by simp), if_neg (by simp), ih acc]
      ring
    · rw [if_pos rfl, if_pos rfl, ih]
      ring

/-- C4, amended, part 1: the two wealth functions agree on registries whose
entries are all ACTIVE with present, digit-only prize values and totals
(no `$` prefixes, no commas, no RETIRED entries). -/
theorem wealth_diff_eq_of_clean (R : Registry) (h : cleanRegB R = true) :
    Differ.calculate_total_wealth_diff R =
      Notary.calculate_total_wealth (Notary.wproj R) := by
  unfold cleanRegB at h
  rw [List.all_eq_true] at h
  unfold Differ.calculate_total_wealth_diff Notary.wproj
  rw [calculate_total_wealth_eq_sum, List.map_map]
  apply congrArg List.sum
  apply List.map_congr_left
  intro kv hkv
  have hh := h kv hkv
  rw [Bool.and_eq_true] at hh
  obtain ⟨hst, hcl⟩ := hh
  simp only [Function.comp]
  rw [if_pos hst]
  apply congrArg List.sum
  apply List.map_congr_left
  intro p hp
  exact contribution_eq_of_clean ((List.all_eq_true.mp hcl) p hp)

theorem pyIntRaise_isOk_of_clean {p : Prize} (h : cleanPrizeB p = true) :
    (Differ.pyIntRaise p.total).isOk = true := by
  unfold cleanPrizeB at h
  rw [Bool.and_eq_true] at h
  obtain ⟨-, ht⟩ := h
  cases hpt : p.total with
  | none => rw [hpt] at ht; exact absurd ht (by simp)
  | some t =>
    rw [hpt] at ht
    simp only at ht
    unfold Differ.pyIntRaise
    dsimp only
    rw [intParse_digits (digitStr_ne_nil ht) (digitStr_all ht)]
    rfl

theorem tierChange_isOk (gid gname : String) (i : Nat) {op np : Prize}
    (ho : (Differ.pyIntRaise op.total).isOk = true)
    (hn : (Differ.pyIntRaise np.total).isOk = true) :
    ∃ c, Differ.tierChange gid gname i op np = .ok c := by
  unfold Differ.tierChange
  cases h1 : Differ.pyIntRaise op.total with
  | error e => rw [h1] at ho; simp [Except.isOk, Except.toBool] at ho
  | ok a =>
    cases h2 : Differ.pyIntRaise np.total with
    | error e => rw [h2] at hn; simp [Except.isOk, Except.toBool] at hn
    | ok b =>
      dsimp only [Bind.bind, Except.bind]
      by_cases hab : a ≠ b
      · rw [if_pos hab]
        exact ⟨_, rfl⟩
      · rw [if_neg hab]
        exact ⟨none, rfl⟩

theorem collectTierChanges_isOk (gid gname : String) :
    ∀ (pairs : List (Prize × Prize)) (i : Nat),
      (∀ pq ∈ pairs, (Differ.pyIntRaise pq.1.total).isOk = true ∧
        (Differ.pyIntRaise pq.2.total).isOk = true) →
      ∃ cs, Differ.collectTierChanges gid gname i pairs = .ok cs := by
  intro pairs
  induction pairs with
  | nil => intro i h; exact ⟨[], rfl⟩
  | cons pq rest ih =>
    intro i h
    obtain ⟨c, hc⟩ := tierChange_isOk gid gname i (h pq (by simp)).1
      (h pq (by simp)).2
    obtain ⟨cs, hcs⟩ := ih (i + 1) (fun q hq => h q (by simp [hq]))
    unfold Differ.collectTierChanges
    rw [hc]
    dsimp only [Bind.bind, Except.bind]
    rw [hcs]
    dsimp only
    cases c with
    | some x => exact ⟨x :: cs, rfl⟩
    | none => exact ⟨cs, rfl⟩

theorem lookup_prizes_clean {R : Registry} (h : cleanRegB R = true)
    (gid : String) :
    ∀ p ∈ (Differ.lookupE R gid).prizes, cleanPrizeB p = true := by
  intro p hp
  unfold Differ.lookupE at hp
  cases hg : getKey R gid with
  | none => rw [hg] at hp; exact absurd hp (List.not_mem_nil p)
  | some e =>
    rw [hg] at hp
    obtain ⟨kv, hkv, hkve⟩ := Differ.getKey_mem hg
    unfold cleanRegB at h
    have hh := (List.all_eq_true.mp h) kv hkv
    rw [Bool.and_eq_true] at hh
    exact (List.all_eq_true.mp hh.2) p (by rw [hkve]; simpa using hp)

theorem gamePrizeChanges_isOk {old_registry new_registry : Registry}
    (ho : cleanRegB old_registry = true) (hn : cleanRegB new_registry = true)
    (gid : String) :
    ∃ cs, Differ.gamePrizeChanges old_registry new_registry gid = .ok cs := by
  unfold Differ.gamePrizeChanges
  apply collectTierChanges_isOk
  intro pq hpq
  obtain ⟨a, b⟩ := pq
  obtain ⟨ha, hb⟩ := List.of_mem_zip hpq
  exact ⟨pyIntRaise_isOk_of_clean (lookup_prizes_clean ho gid a ha),
    pyIntRaise_isOk_of_clean (lookup_prizes_clean hn gid b hb)⟩

theorem prizeChangesAll_isOk {old_registry new_registry : Registry}
    (ho : cleanRegB old_registry = true)
    (hn : cleanRegB new_registry = true) :
    ∀ gids, ∃ cs,
      Differ.prizeChangesAll old_registry new_registry gids = .ok cs := by
  intro gids
  induction gids with
  | nil => exact ⟨[], rfl⟩
  | cons g rest ih =>
    obtain ⟨cs, hcs⟩ := gamePrizeChanges_isOk ho hn g
    obtain ⟨more, hmore⟩ := ih
    unfold Differ.prizeChangesAll
    rw [hcs]
    dsimp only [Bind.bind, Except.bind]
    rw [hmore]
    exact ⟨cs ++ more, rfl⟩

/-- C4, amended: the Differ's internal `_calculate_total_wealth` ignores
entry status and parses with a comma-only cleaner, so it agrees with the
Notary's Wealth Calculator not on every registry, but on registries whose
entries are all ACTIVE and whose prize `value`/`total` fields are present,
nonempty, digit-only strings.  On such snapshots `compute_delta` succeeds
and its `wealth_before`/`wealth_after` equal the Wealth Calculator's
`total_wealth` of the old and new snapshot. -/
theorem c4_theorem (old_registry new_registry : Registry) (run_id : String)
    (ho : cleanRegB old_registry = true)
    (hn : cleanRegB new_registry = true) :
    Differ.calculate_total_wealth_diff old_registry =
      Notary.calculate_total_wealth (Notary.wproj old_registry) ∧
    ∃ d, Differ.compute_delta old_registry new_registry run_id = .ok d ∧
      d.wealth_before =
        Notary.calculate_total_wealth (Notary.wproj old_registry) ∧
      d.wealth_after =
        Notary.calculate_total_wealth (Notary.wproj new_registry) := by
  refine ⟨wealth_diff_eq_of_clean old_registry ho, ?_⟩
  obtain ⟨cs, hcs⟩ := prizeChangesAll_isOk ho hn
    (Differ.interIds old_registry new_registry)
  unfold Differ.compute_delta Differ.prizeChangesOf
  rw [hcs]
  dsimp only [Bind.bind, Except.bind]
  exact ⟨_, rfl, wealth_diff_eq_of_clean old_registry ho,
    wealth_diff_eq_of_clean new_registry hn⟩

/-- An old/new snapshot pair: one prize claimed between the two. -/
def c4CleanOld : Registry :=
  [("996", { baseEntry with
    game_id := "996"
    game_name := "Clean Game"
    prizes := [mkPrize "1000" "5"] })]

def c4CleanNew : Registry :=
  [("996", { baseEntry with
    game_id := "996"
    game_name := "Clean Game"
    prizes := [mkPrize "1000" "4"] })]

theorem c4_witness :
    Differ.calculate_total_wealth_diff c4CleanOld =
      Notary.calculate_total_wealth (Notary.wproj c4CleanOld) ∧
    ∃ d, Differ.compute_delta c4CleanOld c4CleanNew "run-4" = .ok d ∧
      d.wealth_before =
        Notary.calculate_total_wealth (Notary.wproj c4CleanOld) ∧
      d.wealth_after =
        Notary.calculate_total_wealth (Notary.wproj c4CleanNew) :=
  c4_theorem c4CleanOld c4CleanNew "run-4" (by decide) (by decide)

/-! ## C7: fingerprint shape and determinism -/

/-- Lowercase hexadecimal character. -/
def isHexChar (c : Char) : Bool := c.isDigit || ('a' ≤ c && c ≤ 'f')

theorem word32Hex_length (w : Nat) : (Differ.word32Hex w).length = 8 := rfl

theorem sha256Hexdigest_length (s : String) :
    (Differ.sha256Hexdigest s).length = 64 := by
  unfold Differ.sha256Hexdigest
  simp [String.length_append, word32Hex_length]

theorem strTake16_length (s : String) :
    (Differ.strTake16 s).length = min 16 s.length := by
  show (s.data.take 16).length = min 16 s.data.length
  exact List.length_take 16 s.data

theorem toHexNibble_hex (n : Nat) :
    isHexChar (Differ.toHexNibble n) = true := by
  unfold Differ.toHexNibble
  have h : n % 16 < 16 := Nat.mod_lt _ (by norm_num)
  interval_cases hm : (n % 16) <;> decide

theorem word32Hex_hex (w : Nat) :
    ∀ c ∈ (Differ.word32Hex w).data, isHexChar c = true := by
  intro c hc
  unfold Differ.word32Hex at hc
  simp only [List.mem_cons, List.not_mem_nil, or_false] at hc
  rcases hc with h | h | h | h | h | h | h | h <;>
    (rw [h]; exact toHexNibble_hex _)

theorem sha256Hexdigest_hex (s : String) :
    ∀ c ∈ (Differ.sha256Hexdigest s).data, isHexChar c = true := by
  intro c hc
  unfold Differ.sha256Hexdigest at hc
  simp only [String.data_append, List.mem_append] at hc
  rcases hc with ((((((h | h) | h) | h) | h) | h) | h) | h <;>
    exact word32Hex_hex _ c h

/-- C7: `compute_data_hash` always returns a 16-character lowercase-hex
string, and it is a function of the key-sorted projection of the registry to
`(game_id, status, prizes)` alone — so two registries with equal meaningful
content (same key set, same projected triples; key insertion order and every
volatile field such as timestamps, run ids, or guid are free) always receive
the same fingerprint, and hashing the same registry twice trivially does. -/
theorem c7_theorem (R1 R2 : Registry)
    (hcontent : Differ.sortByKey (Differ.hashProj R1) =
      Differ.sortByKey (Differ.hashProj R2)) :
    (Differ.compute_data_hash R1).length = 16 ∧
    (∀ c ∈ (Differ.compute_data_hash R1).data, isHexChar c = true) ∧
    Differ.compute_data_hash R1 = Differ.compute_data_hash R2 := by
  refine ⟨?_, ?_, ?_⟩
  · unfold Differ.compute_data_hash
    rw [strTake16_length, sha256Hexdigest_length]
    norm_num
  · intro c hc
    have hmem : c ∈ (Differ.sha256Hexdigest
        (Differ.serializeHashable R1)).data := by
      unfold Differ.compute_data_hash Differ.strTake16 at hc
      exact List.mem_of_mem_take (by simpa using hc)
    exact sha256Hexdigest_hex _ c hmem
  · have hser : Differ.serializeHashable R1 = Differ.serializeHashable R2 := by
      unfold Differ.serializeHashable
      rw [hcontent]
    unfold Differ.compute_data_hash
    rw [hser]

/-- Two registries with the same meaningful content: keys inserted in
opposite orders, and different guid / first_seen / last_seen / run-id
values. -/
def c7EntryA : Entry :=
  { baseEntry with
    game_id := "11"
    game_name := "Alpha"
    guid := "guid-a1"
    prizes := [mkPrize "500" "3"] }

def c7EntryB : Entry :=
  { baseEntry with
    game_id := "22"
    game_name := "Beta"
    guid := "guid-b1"
    status := "RETIRED"
    prizes := [⟨some "900", some "10.5", some "7", some "$900"⟩] }

def c7RegA : Registry := [("22", c7EntryB), ("11", c7EntryA)]

def c7RegB : Registry :=
  [("11", { c7EntryA with
     guid := "guid-a2"
     first_seen := "2026-05-05"
     last_seen := "2026-06-06"
     last_run_id := "run-zz" }),
   ("22", { c7EntryB with
     guid := "guid-b2"
     overall_odds := "1 in 4.5"
     last_run_id := "run-yy" })]

theorem c7_witness :
    (Differ.compute_data_hash c7RegA).length = 16 ∧
    (∀ c ∈ (Differ.compute_data_hash c7RegA).data, isHexChar c = true) ∧
    Differ.compute_data_hash c7RegA = Differ.compute_data_hash c7RegB :=
  c7_theorem c7RegA c7RegB (by decide)

/-! ## C10: duplicate external ids in one batch -/

/-- Keys of a dict, in order. -/
def keysOf {α : Type} (l : List (String × α)) : List String :=
  l.map Prod.fst

theorem getKey_isSome_eq_hasKey {α : Type} (l : List (String × α))
    (k : String) : (getKey l k).isSome = hasKey l k := by
  induction l with
  | nil => rfl
  | cons x xs ih =>
    rw [getKey_cons, hasKey_cons]
    cases hx : (x.1 == k)
    · simpa using ih
    · simp

theorem mem_keys_iff_hasKey {α : Type} (l : List (String × α)) (k : String) :
    k ∈ keysOf l ↔ hasKey l k = true := by
  unfold keysOf hasKey
  rw [List.any_eq_true]
  constructor
  · intro h
    obtain ⟨kv, hkv, he⟩ := List.mem_map.mp h
    exact ⟨kv, hkv, by simp [he]⟩
  · intro ⟨kv, hkv, he⟩
    exact List.mem_map.mpr ⟨kv, hkv, by simpa using he⟩

theorem keys_setKey_of_hasKey {α : Type} (l : List (String × α)) (k : String)
    (v : α) (h : hasKey l k = true) : keysOf (setKey l k v) = keysOf l := by
  unfold setKey keysOf
  rw [if_pos h, List.map_map]
  apply List.map_congr_left
  intro kv hkv
  by_cases hk : kv.1 = k
  · simp [hk]
  · simp [hk]

theorem keys_setKey_of_not {α : Type} (l : List (String × α)) (k : String)
    (v : α) (h : hasKey l k = false) :
    keysOf (setKey l k v) = keysOf l ++ [k] := by
  unfold setKey keysOf
  rw [if_neg (by simp [h])]
  simp

theorem keys_setKey_nodup {α : Type} (l : List (String × α)) (k : String)
    (v : α) (h : (keysOf l).Nodup) : (keysOf (setKey l k v)).Nodup := by
  cases hk : hasKey l k
  · rw [keys_setKey_of_not l k v hk]
    rw [List.nodup_append]
    refine ⟨h, List.nodup_singleton k, ?_⟩
    intro x hx hxk
    have : x = k := by simpa using hxk
    subst this
    exact absurd ((mem_keys_iff_hasKey l x).mp hx) (by simp [hk])
  · rw [keys_setKey_of_hasKey l k v hk]
    exact h

namespace Notary

theorem keys_commitFold (now run_id : String) (fresh : Nat → String)
    (games : List Game) :
    ∀ (acc : Registry × Nat), (keysOf acc.1).Nodup →
      (keysOf (games.foldl (commitStep now run_id fresh) acc).1).Nodup := by
  induction games with
  | nil => intro acc h; exact h
  | cons g gs ih =>
    intro acc h
    rw [List.foldl_cons]
    apply ih
    unfold commitStep
    cases hg : getKey acc.1 g.game_id with
    | some e => exact keys_setKey_nodup _ _ _ h
    | none => exact keys_setKey_nodup _ _ _ h

theorem keys_deathSweep (reg : Registry) (live : List String) (now : String) :
    keysOf (deathSweep reg live now).1 = keysOf reg := by
  unfold deathSweep keysOf
  rw [List.map_map]
  apply List.map_congr_left
  intro kv hkv
  rfl

/-- The first observed record carrying a given `game_id` (the record whose
BIRTH creates the entry when the id is new). -/
def firstMatch (games : List Game) (gid : String) : Option Game :=
  (games.filter (fun g => g.game_id == gid)).head?

/-- The commit loop never changes the identity fields of an entry that is
already present: the STASIS update touches only `last_seen`, `status`,
`miss_count`, `prizes`, `last_run_id`. -/
theorem commitFold_preserve_identity (now run_id : String)
    (fresh : Nat → String) (games : List Game) :
    ∀ (acc : Registry × Nat) (gid : String) (e : Entry),
      getKey acc.1 gid = some e →
      ∃ e', getKey (games.foldl (commitStep now run_id fresh) acc).1 gid =
          some e' ∧
        e'.guid = e.guid ∧ e'.game_name = e.game_name ∧
        e'.product_key = e.product_key ∧ e'.url_slug = e.url_slug ∧
        e'.first_seen = e.first_seen := by
  induction games with
  | nil => intro acc gid e h; exact ⟨e, h, rfl, rfl, rfl, rfl, rfl⟩
  | cons g gs ih =>
    intro acc gid e h
    rw [List.foldl_cons]
    by_cases hgg : g.game_id = gid
    · have hsome : getKey acc.1 g.game_id = some e := by rw [hgg]; exact h
      have hstep : getKey (commitStep now run_id fresh acc g).1 gid =
          some (stasisUpdate e g now run_id) := by
        unfold commitStep
        rw [hsome]
        rw [← hgg]
        exact getKey_setKey_self _ _ _
      obtain ⟨e', he', h1, h2, h3, h4, h5⟩ :=
        ih (commitStep now run_id fresh acc g) gid
          (stasisUpdate e g now run_id) hstep
      exact ⟨e', he', h1, h2, h3, h4, h5⟩
    · have hstep : getKey (commitStep now run_id fresh acc g).1 gid =
          some e := by
        unfold commitStep
        cases hg : getKey acc.1 g.game_id
        · rw [getKey_setKey_ne _ _ _ _ (fun hc => hgg hc.symm)]
          exact h
        · rw [getKey_setKey_ne _ _ _ _ (fun hc => hgg hc.symm)]
          exact h
      exact ih _ gid e hstep

/-- When the id is new, the entry is created by the BIRTH branch of the
FIRST record carrying it: its name, slug-derived product key, url slug,
`first_seen` and its uuid come from that record and that moment. -/
theorem commitFold_new_identity (now run_id : String)
    (fresh : Nat → String) (games : List Game) :
    ∀ (acc : Registry × Nat) (gid : String) (gf : Game),
      hasKey acc.1 gid = false →
      firstMatch games gid = some gf →
      ∃ e', getKey (games.foldl (commitStep now run_id fresh) acc).1 gid =
          some e' ∧
        e'.game_name = gf.game_name ∧ e'.url_slug = gf.url_slug ∧
        e'.product_key = slugify gf.game_name ∧ e'.first_seen = now ∧
        ∃ k, e'.guid = fresh k := by
  induction games with
  | nil => intro acc gid gf hk hf; simp [firstMatch] at hf
  | cons g gs ih =>
    intro acc gid gf hk hf
    rw [List.foldl_cons]
    by_cases hgg : g.game_id = gid
    · have hgf : gf = g := by
        unfold firstMatch at hf
        rw [List.filter_cons, if_pos (by simp [hgg])] at hf
        simpa using hf.symm
      subst hgf
      have hnone : getKey acc.1 gf.game_id = none := by
        rw [hgg]
        exact getKey_eq_none_of_hasKey_eq_false hk
      have hstep : getKey (commitStep now run_id fresh acc gf).1 gid =
          some (birthEntry gf (fresh acc.2) now run_id) := by
        unfold commitStep
        rw [hnone]
        rw [← hgg]
        exact getKey_setKey_self _ _ _
      obtain ⟨e', he', h1, h2, h3, h4, h5⟩ :=
        commitFold_preserve_identity now run_id fresh gs
          (commitStep now run_id fresh acc gf) gid
          (birthEntry gf (fresh acc.2) now run_id) hstep
      exact ⟨e', he', h2, h4, h3, h5, acc.2, h1⟩
    · have hf' : firstMatch gs gid = some gf := by
        unfold firstMatch at hf ⊢
        rw [List.filter_cons, if_neg (by simp [hgg])] at hf
        exact hf
      have hk' : hasKey (commitStep now run_id fresh acc g).1 gid = false := by
        unfold commitStep
        cases hg : getKey acc.1 g.game_id
        · rw [hasKey_setKey]
          simp [hk, hgg]
        · rw [hasKey_setKey]
          simp [hk, hgg]
      exact ih _ gid gf hk' hf'

/-- The birth counter of the candidate-registry loop counts each distinct
new id exactly once: it equals the number of distinct batch ids that are
absent from the prior registry, however many times each id repeats in the
batch. -/
theorem buildTemp_aux (games : List Game) :
    ∀ (t : List (String × WEntry)) (b : Nat),
      (games.foldl tempStep (t, b)).2 =
        b + ((games.map (fun g => g.game_id)).filter
          (fun x => !hasKey t x)).toFinset.card := by
  induction games with
  | nil => intro t b; simp
  | cons g gs ih =>
    intro t b
    rw [List.foldl_cons, List.map_cons, List.filter_cons]
    cases hk : hasKey t g.game_id
    · have hstep : tempStep (t, b) g =
          (setKey t g.game_id ⟨"ACTIVE", g.prizes⟩, b + 1) := by
        unfold tempStep
        rw [if_neg (by simp [hk])]
      rw [hstep, ih _ (b + 1), if_pos (by simp [hk])]
      have hset : ((gs.map (fun x => x.game_id)).filter
          (fun x => !hasKey (setKey t g.game_id ⟨"ACTIVE", g.prizes⟩) x)).toFinset =
          (((gs.map (fun x => x.game_id)).filter
            (fun x => !hasKey t x)).toFinset).erase g.game_id := by
        ext x
        by_cases hx : x = g.game_id
        · subst hx
          simp [hasKey_setKey]
        · have hbx : (g.game_id == x) = false := by
            simp
            exact fun hc => hx hc.symm
          simp [hasKey_setKey, hbx, hx]
          exact fun _ _ _ _ hc => hx hc.symm
      rw [hset]
      rw [List.toFinset_cons]
      set S := ((gs.map (fun x => x.game_id)).filter
        (fun x => !hasKey t x)).toFinset with hS
      by_cases hmem : g.game_id ∈ S
      · rw [Finset.insert_eq_self.mpr hmem, Finset.card_erase_of_mem hmem]
        have hpos : 0 < S.card := Finset.card_pos.mpr ⟨g.game_id, hmem⟩
        omega
      · rw [Finset.card_insert_of_not_mem hmem,
          Finset.erase_eq_of_not_mem hmem]
        omega
    · have hstep : tempStep (t, b) g =
          (setKey t g.game_id ⟨"ACTIVE", g.prizes⟩, b) := by
        unfold tempStep
        rw [if_pos (by simp [hk])]
      rw [hstep, ih _ b, if_neg (by simp [hk])]
      have hfil : (gs.map (fun x => x.game_id)).filter
          (fun x => !hasKey (setKey t g.game_id ⟨"ACTIVE", g.prizes⟩) x) =
          (gs.map (fun x => x.game_id)).filter (fun x => !hasKey t x) := by
        apply List.filter_congr
        intro x hx
        by_cases hxg : x = g.game_id
        · subst hxg
          simp [hasKey_setKey, hk]
        · have hbx : (g.game_id == x) = false := by
            simp
            exact fun hc => hxg hc.symm
          simp [hasKey_setKey, hbx]
      rw [hfil]

theorem buildTemp_birth_count (reg : List (String × WEntry))
    (games : List Game) :
    (buildTemp reg games).2 =
      ((games.map (fun g => g.game_id)).filter
        (fun x => !hasKey reg x)).toFinset.card := by
  unfold buildTemp
  simpa using buildTemp_aux games reg 0

end Notary

/-- Two observed records sharing one external_id, with different names,
slugs and prizes. -/
def c10GameA : Game := ⟨"31", "First Name", "first", [mkPrize "10" "1"]⟩

def c10GameB : Game := ⟨"31", "Second Name", "second", [mkPrize "20" "1"]⟩

/-- C10, counterexample.  The claim says the committed entry's prizes AND
other observed fields come from the LAST record with that id in batch order.
For a new id the entry is created by the BIRTH branch of the FIRST record
and later duplicates only run the STASIS update (prizes, timestamps, run id):
with batch `[A("First Name"), B("Second Name")]` on id `"31"`, the committed
entry carries B's prizes but A's `game_name` — not the last record's. -/
theorem c10_counterexample :
    (match Notary.process_audit .missing .missing [c10GameA, c10GameB]
        "run-cex10" 0 "NOW10" (fun k => toString k) with
     | .ok o => (getKey (o.result.getD []) "31").map
         (fun e => (e.game_name, e.prizes))
     | .error _ => none) = some ("First Name", [mkPrize "20" "1"]) ∧
    c10GameB.game_name = "Second Name" := by
  exact ⟨by decide, by decide⟩

/-- C10, amended: with duplicate ids in one batch, the committed registry
still has unique keys with exactly one entry for the id; that entry is
ACTIVE and carries the LAST matching record's prizes (and fresh
`last_seen`/`last_run_id`, `miss_count = 0`), while — when the id is new —
its identity fields (`game_name`, `url_slug`, `product_key`, `first_seen`,
`guid`) come from the FIRST matching record's BIRTH; and `birth_count`
counts each distinct new id exactly once (the number of distinct observed
ids absent from the prior registry). -/
theorem c10_theorem (regFile : FileState Registry)
    (pulseFile : FileState (List PulseSample)) (games : List Game)
    (run_id : String) (kb : Int) (now : String) (fresh : Nat → String)
    (out : Notary.AuditOutcome) (reg' : Registry) (gid : String) (gl : Game)
    (hnodup : (keysOf (Notary.loadRegistry regFile)).Nodup)
    (hlast : Notary.lastMatch games gid = some gl)
    (h : Notary.process_audit regFile pulseFile games run_id kb now fresh =
      .ok out)
    (hr : out.result = some reg') :
    ((keysOf reg').Nodup ∧ gid ∈ keysOf reg') ∧
    (∃ e, getKey reg' gid = some e ∧ e.status = "ACTIVE" ∧
      e.prizes = gl.prizes ∧ e.miss_count = 0 ∧ e.last_seen = now ∧
      e.last_run_id = run_id ∧
      (∀ gf, hasKey (Notary.loadRegistry regFile) gid = false →
        Notary.firstMatch games gid = some gf →
        e.game_name = gf.game_name ∧ e.url_slug = gf.url_slug ∧
        e.product_key = Notary.slugify gf.game_name ∧ e.first_seen = now ∧
        ∃ k, e.guid = fresh k)) ∧
    (Notary.buildTemp (Notary.wproj (Notary.loadRegistry regFile)) games).2 =
      ((games.map (fun g => g.game_id)).filter
        (fun x => !hasKey (Notary.wproj (Notary.loadRegistry regFile))
          x)).toFinset.card := by
  obtain ⟨hreg, -⟩ :=
    Notary.process_audit_ok_some _ _ _ _ _ _ _ _ _ h hr
  subst hreg
  have hmemlive : gid ∈ games.map (fun g => g.game_id) := by
    unfold Notary.lastMatch at hlast
    obtain ⟨ys, hys⟩ := List.getLast?_eq_some_iff.mp hlast
    have hgl : gl ∈ games.filter (fun g => g.game_id == gid) := by
      rw [hys]
      simp
    have hmf := List.mem_filter.mp hgl
    exact List.mem_map.mpr ⟨gl, hmf.1, by simpa using hmf.2⟩
  obtain ⟨e, he, hst, hpr, hm0, hls, hlr⟩ :=
    Notary.commitFold_last now run_id fresh games
      (Notary.loadRegistry regFile, 0) gid gl hlast
  have hget' : getKey (Notary.deathSweep
      (Notary.commitPhase (Notary.loadRegistry regFile) games now run_id
        fresh) (games.map (fun g => g.game_id)) now).1 gid = some e := by
    rw [Notary.getKey_deathSweep]
    unfold Notary.commitPhase
    rw [he]
    simp [Notary.sweptEntry_of_mem_live now e hmemlive]
  refine ⟨⟨?_, ?_⟩, ⟨e, hget', hst, hpr, hm0, hls, hlr, ?_⟩,
    Notary.buildTemp_birth_count _ _⟩
  · rw [Notary.keys_deathSweep]
    unfold Notary.commitPhase
    exact Notary.keys_commitFold now run_id fresh games
      (Notary.loadRegistry regFile, 0) hnodup
  · rw [mem_keys_iff_hasKey, ← getKey_isSome_eq_hasKey, hget']
    rfl
  · intro gf hnew hfirst
    obtain ⟨e2, he2, i1, i2, i3, i4, k, i5⟩ :=
      Notary.commitFold_new_identity now run_id fresh games
        (Notary.loadRegistry regFile, 0) gid gf hnew hfirst
    have heq : e2 = e := by
      rw [he] at he2
      exact (by simpa using he2 : e = e2).symm
    subst heq
    exact ⟨i1, i2, i3, i4, k, i5⟩

def c10wOut : Notary.AuditOutcome :=
  (Notary.process_audit .missing .missing [c10GameA, c10GameB] "run-w10" 0
    "NOW-10" (fun k => "uuid-" ++ toString k)).toOption.getD
    ⟨none, .missing, .missing⟩

def c10wReg : Registry := c10wOut.result.getD []

theorem c10_witness :
    ((keysOf c10wReg).Nodup ∧ "31" ∈ keysOf c10wReg) ∧
    (∃ e, getKey c10wReg "31" = some e ∧ e.status = "ACTIVE" ∧
      e.prizes = c10GameB.prizes ∧ e.miss_count = 0 ∧ e.last_seen = "NOW-10" ∧
      e.last_run_id = "run-w10" ∧ e.game_name = c10GameA.game_name ∧
      e.url_slug = c10GameA.url_slug ∧
      e.product_key = Notary.slugify c10GameA.game_name ∧
      e.first_seen = "NOW-10" ∧
      ∃ k : Nat, e.guid = "uuid-" ++ toString k) ∧
    (Notary.buildTemp (Notary.wproj (Notary.loadRegistry .missing))
      [c10GameA, c10GameB]).2 =
      (([c10GameA, c10GameB].map (fun g => g.game_id)).filter
        (fun x => !hasKey (Notary.wproj (Notary.loadRegistry .missing))
          x)).toFinset.card := by
  obtain ⟨ha, ⟨e, he, h1, h2, h3, h4, h5, hident⟩, hbirth⟩ :=
    c10_theorem .missing .missing [c10GameA, c10GameB] "run-w10" 0 "NOW-10"
      (fun k => "uuid-" ++ toString k) c10wOut c10wReg "31" c10GameB
      (by decide) (by decide) rfl rfl
  obtain ⟨i1, i2, i3, i4, k, i5⟩ := hident c10GameA rfl rfl
  exact ⟨ha, ⟨e, he, h1, h2, h3, h4, h5, i1, i2, i3, i4, k, i5⟩, hbirth⟩

end DeInformer
